import Mathlib

/-!
Verification development for the world-banking-display data pipeline
(generic CSV tokenizer, banking record mapper, aggregation engine and
merge policy).

Modelling conventions:
- strings are lists of characters (`List Char`);
- JavaScript numbers that can become NaN are `Option ℚ` (`none` is NaN);
  arithmetic propagates `none` and every comparison with `none` is false,
  matching IEEE NaN comparison semantics; the rational arithmetic itself
  is exact, an idealization of float64 that ignores rounding — where a
  claim depends on rounding, a separate binary64 model (`F64`, with
  round-to-nearest-even at 53 bits) is used;
- JavaScript `Date` values are their millisecond timestamps (`Int`),
  with an invalid date represented by `none : Option Int`;
- the engine-supplied generic date parser `new Date(string)` (used only
  as a fallback) is an explicit parameter `fb : List Char → Option Int`
  of every definition that reaches it.
-/

namespace WBD

/-- Characters matched by the JavaScript regular-expression class `\s`
(whitespace, including the Unicode spaces JavaScript recognises). -/
def jsSpace (c : Char) : Bool :=
  decide (c = ' ' ∨ c = '\t' ∨ c = '\n' ∨ c = '\r' ∨ c = '\x0b' ∨ c = '\x0c' ∨
    c = '\u00A0' ∨ c = '\u1680' ∨ ('\u2000' ≤ c ∧ c ≤ '\u200A') ∨
    c = '\u2028' ∨ c = '\u2029' ∨ c = '\u202F' ∨ c = '\u205F' ∨
    c = '\u3000' ∨ c = '\uFEFF')

/-- JavaScript `String.prototype.trim`: strip whitespace at both ends. -/
def jsTrim (s : List Char) : List Char :=
  ((s.dropWhile jsSpace).reverse.dropWhile jsSpace).reverse

/-- JavaScript `str.split('\n')`: split at every newline; an empty string
yields one empty piece. -/
def splitNl : List Char → List (List Char)
  | [] => [[]]
  | c :: rest =>
    if c = '\n' then [] :: splitNl rest
    else
      match splitNl rest with
      | [] => [[c]]
      | l :: ls => (c :: l) :: ls

/-- ASCII lower-casing, the fragment of `toLowerCase` the pipeline relies on. -/
def toLowerAscii (s : List Char) : List Char :=
  s.map (fun c => if 'A' ≤ c ∧ c ≤ 'Z' then Char.ofNat (c.toNat + 32) else c)

/-- Does the second list start with the first one? -/
def leadsWith : List Char → List Char → Bool
  | [], _ => true
  | _ :: _, [] => false
  | n :: ns, h :: hs => decide (n = h) && leadsWith ns hs

/-- JavaScript `hay.includes(needle)`: substring containment. -/
def includesSub (hay needle : List Char) : Bool :=
  match hay with
  | [] => leadsWith needle []
  | _ :: rest => leadsWith needle hay || includesSub rest needle

/-- Numeric value of a list of decimal digit characters. -/
def natOfDigits (ds : List Char) : ℕ :=
  ds.foldl (fun n c => 10 * n + (c.toNat - 48)) 0

/-- JavaScript numbers with NaN: `none` is NaN, `some q` a (finite) number. -/
abbrev JsNum := Option ℚ

/-- Kernel-computable rational addition (`Rat.add` is irreducible; this
form evaluates, and `qAdd_eq` identifies it with `+`). -/
def qAdd (a b : ℚ) : ℚ := mkRat (a.num * b.den + b.num * a.den) (a.den * b.den)

/-- Kernel-computable rational subtraction. -/
def qSub (a b : ℚ) : ℚ := mkRat (a.num * b.den - b.num * a.den) (a.den * b.den)

/-- Kernel-computable rational negation. -/
def qNeg (a : ℚ) : ℚ := mkRat (-a.num) a.den

/-- Kernel-computable rational absolute value. -/
def qAbs (a : ℚ) : ℚ := mkRat (a.num.natAbs : ℤ) a.den

/-- Kernel-computable rational strict order test. -/
def qLt (a b : ℚ) : Bool := decide (a.num * (b.den : ℤ) < b.num * (a.den : ℤ))

theorem ratNumCast (a : ℚ) : ((a.num : ℚ)) = a * (a.den : ℚ) := by
  have h := Rat.num_div_den a
  rw [div_eq_iff (by positivity)] at h
  exact h

theorem qAdd_eq (a b : ℚ) : qAdd a b = a + b := by
  rw [qAdd, Rat.mkRat_eq_div, div_eq_iff (by positivity)]
  push_cast
  rw [ratNumCast, ratNumCast]
  ring

theorem qSub_eq (a b : ℚ) : qSub a b = a - b := by
  rw [qSub, Rat.mkRat_eq_div, div_eq_iff (by positivity)]
  push_cast
  rw [ratNumCast, ratNumCast]
  ring

theorem qNeg_eq (a : ℚ) : qNeg a = -a := by
  rw [qNeg, Rat.mkRat_eq_div, div_eq_iff (by positivity)]
  push_cast
  rw [ratNumCast]
  ring

theorem qAbs_eq (a : ℚ) : qAbs a = |a| := by
  rw [qAbs, Rat.mkRat_eq_div]
  push_cast [Int.cast_natAbs]
  rw [← abs_of_pos (show (0:ℚ) < (a.den : ℚ) by positivity), ← abs_div, Rat.num_div_den]

theorem qLt_iff (a b : ℚ) : qLt a b = true ↔ a < b := by
  rw [qLt, decide_eq_true_iff]
  rw [show (a < b) ↔ ((a.num : ℚ) / a.den < (b.num : ℚ) / b.den) by
    rw [Rat.num_div_den, Rat.num_div_den]]
  rw [div_lt_div_iff₀ (by positivity) (by positivity)]
  exact_mod_cast Iff.rfl

/-- NaN-propagating addition over exact rational values; this idealizes
float64 `+` by ignoring rounding (see `fAdd` for the rounding model). -/
def jsAdd : JsNum → JsNum → JsNum
  | some a, some b => some (qAdd a b)
  | _, _ => none

/-- NaN-propagating subtraction over exact rational values; idealizes
float64 `-` by ignoring rounding (see `fSub` for the rounding model). -/
def jsSub : JsNum → JsNum → JsNum
  | some a, some b => some (qSub a b)
  | _, _ => none

/-- NaN-propagating absolute value (`Math.abs`). -/
def jsAbs : JsNum → JsNum
  | some a => some (qAbs a)
  | none => none

/-- JavaScript `<`: every comparison involving NaN is false. -/
def jsLt : JsNum → JsNum → Bool
  | some a, some b => qLt a b
  | _, _ => false

/-- NaN-propagating division by a natural count (used for averages). -/
def jsDivNat : JsNum → ℕ → JsNum
  | some a, n => some (mkRat a.num (a.den * n))
  | none, _ => none

/-- JavaScript `parseFloat`, restricted to finite decimal literals:
skip leading whitespace, read an optional sign and then the longest
prefix of the form `digits [. digits] [e/E [sign] digits]`; `none` when
no digits are found (the `Infinity` literal is outside the pipeline's
input space and is not modelled). -/
def parseFloatModel (s0 : List Char) : Option ℚ :=
  let s1 := s0.dropWhile jsSpace
  let sgn : ℤ := match s1 with
    | '-' :: _ => -1
    | _ => 1
  let s2 := match s1 with
    | '+' :: r => r
    | '-' :: r => r
    | _ => s1
  let ip := s2.takeWhile Char.isDigit
  let r1 := s2.dropWhile Char.isDigit
  let fp := match r1 with
    | '.' :: r => r.takeWhile Char.isDigit
    | _ => []
  let r2 := match r1 with
    | '.' :: r => r.dropWhile Char.isDigit
    | _ => r1
  if ip = [] ∧ fp = [] then none
  else
    let den : ℕ := 10 ^ fp.length
    let mantNum : ℤ := sgn * ((natOfDigits ip : ℤ) * (den : ℤ) + (natOfDigits fp : ℤ))
    let e : ℤ := match r2 with
      | 'e' :: r3 => parseExp r3
      | 'E' :: r3 => parseExp r3
      | _ => 0
    if 0 ≤ e then some (mkRat (mantNum * ((10 ^ e.toNat : ℕ) : ℤ)) den)
    else some (mkRat mantNum (den * 10 ^ (-e).toNat))
where
  parseExp (r3 : List Char) : ℤ :=
    let es : ℤ := match r3 with
      | '-' :: _ => -1
      | _ => 1
    let r4 := match r3 with
      | '+' :: r => r
      | '-' :: r => r
      | _ => r3
    let ed := r4.takeWhile Char.isDigit
    if ed = [] then 0 else es * (natOfDigits ed : ℤ)

/-- The character class stripped by `parseAmount`: `$`, `,`, `+`, whitespace. -/
def amountStripChar (c : Char) : Bool :=
  decide (c = '$' ∨ c = ',' ∨ c = '+') || jsSpace c

/-- JavaScript `str.replace(re, '')` for a single-character class `re`
with the `g` flag: scan the string and drop every matching character. -/
def jsReplaceClass (p : Char → Bool) : List Char → List Char
  | [] => []
  | c :: rest => if p c then jsReplaceClass p rest else c :: jsReplaceClass p rest

/-- `CSVParser.parseAmount`: strip `$`, `,`, `+` and whitespace, take a
leading `-` on the remainder as the sign, parse the rest with
`parseFloat`, NaN when that fails. -/
def parseAmount (s : List Char) : JsNum :=
  let cleanStr := jsReplaceClass amountStripChar s
  let isNegative : Bool := match cleanStr with
    | '-' :: _ => true
    | _ => false
  let numericPart := match cleanStr with
    | '-' :: r => r
    | _ => cleanStr
  match parseFloatModel numericPart with
  | none => none
  | some q => some (if isNegative then qNeg q else q)

/-- Parser configuration surface of `CSVParser`. -/
structure CSVParseOptions where
  skipEmptyRows : Bool
  trimWhitespace : Bool
  handleEmptyHeaders : Bool
deriving DecidableEq

/-- The defaults taken by a `CSVParser` constructed without options. -/
def defaultOpts : CSVParseOptions := ⟨true, true, true⟩

/-- A parsed row: key/value pairs in insertion order, as a JavaScript
object with string values. -/
abbrev CSVRow := List (List Char × List Char)

/-- Read `row[key]`, with `''` for an absent key (the `|| ''` fallback
used at every read site). -/
def rowGet (r : CSVRow) (k : List Char) : List Char :=
  match r.find? (fun p => decide (p.1 = k)) with
  | some p => p.2
  | none => []

/-- JavaScript `row[key] = v`: overwrite an existing key in place,
otherwise append the pair. -/
def objSet (r : CSVRow) (k v : List Char) : CSVRow :=
  if r.any (fun p => decide (p.1 = k)) then
    r.map (fun p => if p.1 = k then (k, v) else p)
  else r ++ [(k, v)]

/-- Generic table produced by the tokenizer (`CSVTable`). -/
structure CSVTable where
  headers : List (List Char)
  rows : List CSVRow
  totalRows : ℕ
deriving DecidableEq

/-- `CSVParser.parseCSVLine`, the quote-aware tokenizer: a `"` toggles
quote mode unless, inside quotes, it is doubled (which emits one literal
`"` and consumes both); a `,` outside quotes ends the field; the final
field is always emitted. `cur` holds the current field reversed. -/
def parseCSVLineAux (inQ : Bool) (cur : List Char) : List Char → List (List Char)
  | [] => [cur.reverse]
  | c :: rest =>
    if c = '"' then
      if inQ then
        match rest with
        | '"' :: rest2 => parseCSVLineAux true ('"' :: cur) rest2
        | r2 => parseCSVLineAux false cur r2
      else parseCSVLineAux true cur rest
    else if c = ',' ∧ ¬inQ then cur.reverse :: parseCSVLineAux false [] rest
    else parseCSVLineAux inQ (c :: cur) rest

/-- Tokenize one line into its fields. -/
def parseCSVLine (line : List Char) : List (List Char) :=
  parseCSVLineAux false [] line

/-- `CSVParser.processHeaders`: trim each header; an empty header at
position 0 becomes `TransactionID`, at position `i` it becomes
`Column(i+1)`, when empty-header handling is on. -/
def processHeaders (opts : CSVParseOptions) (headers : List (List Char)) : List (List Char) :=
  headers.mapIdx (fun i h =>
    let ph := jsTrim h
    if ph = [] ∧ opts.handleEmptyHeaders then
      if i = 0 then ("TransactionID").toList
      else ("Column").toList ++ Nat.toDigits 10 (i + 1)
    else ph)

/-- Build one row object from the processed headers and the tokenized
values: positions beyond the value list get `''`; values are trimmed
when `trimWhitespace` is set. -/
def buildRow (opts : CSVParseOptions) (headers values : List (List Char)) : CSVRow :=
  (headers.mapIdx (fun i h =>
    let v := values.getD i []
    (h, if opts.trimWhitespace then jsTrim v else v))).foldl
    (fun r p => objSet r p.1 p.2) []

/-- `CSVParser.parse`: split into lines, discard lines that are blank
after trimming, take the first line as headers and build a row per
remaining line. -/
def parse (opts : CSVParseOptions) (content : List Char) : CSVTable :=
  let lines := (splitNl content).filter (fun l => decide (jsTrim l ≠ []))
  match lines with
  | [] => ⟨[], [], 0⟩
  | first :: restLines =>
    let ph := processHeaders opts (parseCSVLine first)
    let rows := restLines.filterMap (fun l =>
      let line := jsTrim l
      if line = [] ∧ opts.skipEmptyRows then none
      else
        let values := parseCSVLine line
        if values = [] then none
        else some (buildRow opts ph values))
    ⟨ph, rows, rows.length⟩

/-- Wrap a field in double quotes (no internal re-escaping, as in the
source's export). -/
def quoteField (f : List Char) : List Char := '"' :: (f ++ ['"'])

/-- Join fields with commas. -/
def joinComma (fs : List (List Char)) : List Char := List.intercalate [','] fs

/-- `CSVParser.exportToCSV`: one quoted line for the headers, then one
per row in table order, joined by newlines. -/
def exportToCSV (t : CSVTable) : List Char :=
  List.intercalate ['\n']
    (joinComma (t.headers.map quoteField) ::
      t.rows.map (fun r => joinComma (t.headers.map (fun h => quoteField (rowGet r h)))))

/-- Days since the Unix epoch of the first day of month `m` (1-based) of
year `y` in the proleptic Gregorian calendar, extended additively in the
day argument; this is how the `Date(y, mIdx, d, h, mi)` constructor
normalises out-of-range day/hour/minute components. -/
def daysFromCivil (y m d : ℤ) : ℤ :=
  let yy := y - (if m ≤ 2 then 1 else 0)
  let era := Int.fdiv yy 400
  let yoe := yy - era * 400
  let doy := Int.fdiv (153 * (m + (if 2 < m then -3 else 9)) + 2) 5 + d - 1
  let doe := yoe * 365 + Int.fdiv yoe 4 - Int.fdiv yoe 100 + doy
  era * 146097 + doe - 719468

/-- Inverse of `daysFromCivil`: the `(year, month, day)` a `Date` reports
for a given day number. -/
def civilFromDays (z0 : ℤ) : ℤ × ℤ × ℤ :=
  let z := z0 + 719468
  let era := Int.fdiv z 146097
  let doe := z - era * 146097
  let yoe := Int.fdiv (doe - Int.fdiv doe 1460 + Int.fdiv doe 36524 - Int.fdiv doe 146097) 365
  let y := yoe + era * 400
  let doy := doe - (365 * yoe + Int.fdiv yoe 4 - Int.fdiv yoe 100)
  let mp := Int.fdiv (5 * doy + 2) 153
  let d := doy - Int.fdiv (153 * mp + 2) 5 + 1
  let m := mp + (if mp < 10 then 3 else -9)
  (y + (if m ≤ 2 then 1 else 0), m, d)

/-- Millisecond timestamp of `new Date(y, mIdx, d, h, mi)` (arguments as
produced by `parseInt` on the regex captures). A year in `0..99` is
shifted to `1900..1999`, as the `Date` constructor does. -/
def mkDateJs (y mIdx d h mi : ℕ) : ℤ :=
  let yy : ℤ := if y ≤ 99 then (y : ℤ) + 1900 else (y : ℤ)
  ((daysFromCivil yy ((mIdx : ℤ) + 1) 1 + ((d : ℤ) - 1)) * 1440 + (h : ℤ) * 60 + (mi : ℤ)) * 60000

/-- Word characters, the JavaScript regex class `\w`. -/
def isWordChar (c : Char) : Bool :=
  c.isDigit || decide (('a' ≤ c ∧ c ≤ 'z') ∨ ('A' ≤ c ∧ c ≤ 'Z') ∨ c = '_')

/-- Captures of the banking date pattern: day, month token, year, hour,
minute (numeric captures already through `parseInt`). -/
abbrev DateCaps := ℕ × List Char × ℕ × ℕ × ℕ

/-- Try to match `(\d{2})/(\w{3})/(\d{4})\s+(\d{2}):(\d{2})` at the head
of the list (trailing characters are ignored, as the pattern is not
anchored). -/
def matchDateAt (l : List Char) : Option DateCaps :=
  match l with
  | d1 :: d2 :: '/' :: w1 :: w2 :: w3 :: '/' :: y1 :: y2 :: y3 :: y4 :: rest =>
    if d1.isDigit ∧ d2.isDigit ∧ isWordChar w1 ∧ isWordChar w2 ∧ isWordChar w3 ∧
        y1.isDigit ∧ y2.isDigit ∧ y3.isDigit ∧ y4.isDigit then
      match rest with
      | s0 :: rest1 =>
        if jsSpace s0 then
          match rest1.dropWhile jsSpace with
          | h1 :: h2 :: ':' :: m1 :: m2 :: _ =>
            if h1.isDigit ∧ h2.isDigit ∧ m1.isDigit ∧ m2.isDigit then
              some (natOfDigits [d1, d2], [w1, w2, w3], natOfDigits [y1, y2, y3, y4],
                natOfDigits [h1, h2], natOfDigits [m1, m2])
            else none
          | _ => none
        else none
      | [] => none
    else none
  | _ => none

/-- Leftmost match of the banking date pattern in a string, as
`str.match(re)` finds it. -/
def regexSearchDate : List Char → Option DateCaps
  | [] => none
  | c :: rest =>
    match matchDateAt (c :: rest) with
    | some caps => some caps
    | none => regexSearchDate rest

/-- Month abbreviation table of `getMonthIndex` (case-sensitive). -/
def monthAssoc (mon : List Char) : Option ℕ :=
  if mon = ("Jan").toList then some 0
  else if mon = ("Feb").toList then some 1
  else if mon = ("Mar").toList then some 2
  else if mon = ("Apr").toList then some 3
  else if mon = ("May").toList then some 4
  else if mon = ("Jun").toList then some 5
  else if mon = ("Jul").toList then some 6
  else if mon = ("Aug").toList then some 7
  else if mon = ("Sep").toList then some 8
  else if mon = ("Oct").toList then some 9
  else if mon = ("Nov").toList then some 10
  else if mon = ("Dec").toList then some 11
  else none

/-- `getMonthIndex`: table lookup with silent default 0 (the `|| 0` and
`?? 0` fallbacks of the three copies in the source agree on this). -/
def getMonthIndex (mon : List Char) : ℕ :=
  (monthAssoc mon).getD 0

/-- `BankingCSVParser.parseDate` (also the merge routine's local
`parseBankingDate`): the primary `DD/Mon/YYYY HH:MM` pattern, with
`new Date(dateStr)` (the parameter `fb`) as fallback; `none` is an
invalid date. -/
def parseDate (fb : List Char → Option ℤ) (s : List Char) : Option ℤ :=
  match regexSearchDate s with
  | some (d, mon, y, h, mi) => some (mkDateJs y (getMonthIndex mon) d h mi)
  | none => fb s

/-- The display component's `parseBankingDate`: same pattern, but an
invalid fallback result is replaced by `new Date(0)` (the epoch), so the
result is always a valid instant. -/
def parseBankingDate (fb : List Char → Option ℤ) (s : List Char) : Option ℤ :=
  match regexSearchDate s with
  | some (d, mon, y, h, mi) => some (mkDateJs y (getMonthIndex mon) d h mi)
  | none =>
    match fb s with
    | some t => some t
    | none => some 0

/-- A generic-date-parse model under which no string parses; concrete
evaluations use it for inputs (like `not a date`) that JavaScript's
`new Date` rejects as `Invalid Date`. -/
def noFb : List Char → Option ℤ := fun _ => none

/-- Typed banking record (`BankingTransaction`); `fromText` models the
source's `from` field, which is a reserved word here. -/
structure BankingTransaction where
  transactionId : List Char
  fromText : List Char
  routing : List Char
  reason : List Char
  amount : JsNum
  balance : List Char
  date : List Char
  rawRow : CSVRow
deriving DecidableEq

/-- Deposit/withdrawal summary (`BankingCSVTable.summary`). -/
structure BankingSummary where
  deposits : JsNum
  withdrawals : JsNum
  netChange : JsNum
deriving DecidableEq

/-- Aggregated banking table (`BankingCSVTable`). -/
structure BankingCSVTable where
  transactions : List BankingTransaction
  totalTransactions : ℕ
  totalAmount : JsNum
  averageAmount : JsNum
  dateRange : List Char × List Char
  summary : BankingSummary
deriving DecidableEq

/-- `BankingCSVParser.parseTransactions`: positional re-keying of each
generic row (the id falls back from `TransactionID` to the empty-string
key). -/
def parseTransactions (t : CSVTable) : List BankingTransaction :=
  t.rows.map (fun row =>
    let tid0 := rowGet row (("TransactionID").toList)
    { transactionId := if tid0 = [] then rowGet row [] else tid0
      fromText := rowGet row (("From").toList)
      routing := rowGet row (("Routing").toList)
      reason := rowGet row (("Reason").toList)
      amount := parseAmount (rowGet row (("Amount").toList))
      balance := rowGet row (("Balance").toList)
      date := rowGet row (("Date").toList)
      rawRow := row })

/-- `calculateTotalAmount`: NaN-propagating sum of all amounts. -/
def calculateTotalAmount (ts : List BankingTransaction) : JsNum :=
  ts.foldl (fun s t => jsAdd s t.amount) (some 0)

/-- `calculateAverageAmount`. -/
def calculateAverageAmount (ts : List BankingTransaction) : JsNum :=
  if ts.length = 0 then some 0 else jsDivNat (calculateTotalAmount ts) ts.length

/-- The `calculateSummary` accumulation loop: `amount > 0` adds to
deposits, everything else (zero, negative, NaN) adds `|amount|` to
withdrawals. -/
def calcSummaryAux (d w : JsNum) : List BankingTransaction → JsNum × JsNum
  | [] => (d, w)
  | t :: ts =>
    if jsLt (some 0) t.amount then calcSummaryAux (jsAdd d t.amount) w ts
    else calcSummaryAux d (jsAdd w (jsAbs t.amount)) ts

/-- `BankingCSVParser.calculateSummary`. -/
def calculateSummary (ts : List BankingTransaction) : BankingSummary :=
  let p := calcSummaryAux (some 0) (some 0) ts
  ⟨p.1, p.2, jsSub p.1 p.2⟩

/-- Insertion step of the date-range sort: the source sorts date strings
with the comparator `parseDate(a) - parseDate(b)`, a NaN comparator
value being treated as a tie; `x` goes after `y` whenever the comparator
does not put it strictly before. -/
def dateCmpKeeps (fb : List Char → Option ℤ) (y x : List Char) : Bool :=
  match parseDate fb y, parseDate fb x with
  | some a, some b => decide (a ≤ b)
  | _, _ => true

/-- Stable insertion into a list sorted by the date comparator. -/
def dateInsert (fb : List Char → Option ℤ) (x : List Char) : List (List Char) → List (List Char)
  | [] => [x]
  | y :: rest => if dateCmpKeeps fb y x then y :: dateInsert fb x rest else x :: y :: rest

/-- Stable sort by the date comparator. -/
def dateSort (fb : List Char → Option ℤ) : List (List Char) → List (List Char)
  | [] => []
  | x :: rest => dateInsert fb x (dateSort fb rest)

/-- `BankingCSVParser.getDateRange`: the verbatim date strings of the
earliest and latest transaction; only empty date strings are removed
before sorting. -/
def getDateRange (fb : List Char → Option ℤ) (ts : List BankingTransaction) :
    List Char × List Char :=
  if ts = [] then ([], [])
  else
    let dates := (ts.map (fun t => t.date)).filter (fun d => decide (d ≠ []))
    if dates = [] then ([], [])
    else
      let sorted := dateSort fb dates
      (sorted.headD [], sorted.getLastD [])

/-- `BankingCSVParser.parseBankingData`: generic parse with default
options, then the typed view and its aggregates. -/
def parseBankingData (fb : List Char → Option ℤ) (content : List Char) : BankingCSVTable :=
  let ts := parseTransactions (parse defaultOpts content)
  { transactions := ts
    totalTransactions := ts.length
    totalAmount := calculateTotalAmount ts
    averageAmount := calculateAverageAmount ts
    dateRange := getDateRange fb ts
    summary := calculateSummary ts }

/-- Transaction type selector of `getTransactionsByType`. -/
inductive TxType
  | deposits
  | withdrawals
  | all
deriving DecidableEq

/-- `BankingCSVParser.getTransactionsByType`: strict `amount > 0` for
deposits, strict `amount < 0` for withdrawals. -/
def getTransactionsByType (table : BankingCSVTable) : TxType → List BankingTransaction
  | TxType.deposits => table.transactions.filter (fun t => jsLt (some 0) t.amount)
  | TxType.withdrawals => table.transactions.filter (fun t => jsLt t.amount (some 0))
  | TxType.all => table.transactions

/-- Monthly bucket key `year-month`, with `nan` modelling the
`"NaN-NaN"` key an invalid date produces via `getFullYear()`/
`getMonth()`. -/
inductive MonthKey
  | ym (y m : ℤ)
  | nan
deriving DecidableEq

/-- Bucket key of a (possibly invalid) date value. -/
def monthKeyOf (od : Option ℤ) : MonthKey :=
  match od with
  | none => MonthKey.nan
  | some ts =>
    let c := civilFromDays (Int.fdiv ts 86400000)
    MonthKey.ym c.1 c.2.1

/-- One monthly bucket: count, total, deposits, withdrawals. -/
structure MonthlyBucket where
  count : ℕ
  total : JsNum
  deposits : JsNum
  withdrawals : JsNum
deriving DecidableEq

/-- Add one transaction to a bucket, with the same `amount > 0`
boundary as `calculateSummary`. -/
def bucketAdd (b : MonthlyBucket) (t : BankingTransaction) : MonthlyBucket :=
  { count := b.count + 1
    total := jsAdd b.total t.amount
    deposits := if jsLt (some 0) t.amount then jsAdd b.deposits t.amount else b.deposits
    withdrawals := if jsLt (some 0) t.amount then b.withdrawals
      else jsAdd b.withdrawals (jsAbs t.amount) }

/-- The empty bucket a fresh key starts from. -/
def emptyBucket : MonthlyBucket := ⟨0, some 0, some 0, some 0⟩

/-- Record one transaction under its key, preserving key insertion
order (JavaScript objects keep it for such keys). -/
def bumpMonthly (k : MonthKey) (t : BankingTransaction) :
    List (MonthKey × MonthlyBucket) → List (MonthKey × MonthlyBucket)
  | [] => [(k, bucketAdd emptyBucket t)]
  | (kk, b) :: rest =>
    if kk = k then (kk, bucketAdd b t) :: rest
    else (kk, b) :: bumpMonthly k t rest

/-- `BankingCSVParser.getMonthlySummary`: group transactions by the
`(year, month)` of their parsed date; an invalid date groups under the
`NaN-NaN` key. -/
def getMonthlySummary (fb : List Char → Option ℤ) (ts : List BankingTransaction) :
    List (MonthKey × MonthlyBucket) :=
  ts.foldl (fun acc t => bumpMonthly (monthKeyOf (parseDate fb t.date)) t acc) []

/-- Lower-case, trimmed view of a string (the component's `normalize`). -/
def normalizeStr (s : List Char) : List Char :=
  toLowerAscii (jsTrim s)

/-- `transactionMatchesReasons`: an empty reason list matches
everything, otherwise any case-insensitive substring hit matches. -/
def transactionMatchesReasons (reasonText : List Char) (reasons : List (List Char)) : Bool :=
  decide (reasons = []) ||
    reasons.any (fun r => includesSub (normalizeStr reasonText) (normalizeStr r))

/-- `transactionMatchesFroms`: an absent or empty sender list matches
everything. -/
def transactionMatchesFroms (fromText : List Char) (froms : List (List Char)) : Bool :=
  decide (froms = []) ||
    froms.any (fun f => includesSub (normalizeStr fromText) (normalizeStr f))

/-- Truthiness of an optional bound string (`if (start)`): absent or
empty strings are falsy. -/
def boundGiven : Option (List Char) → Bool
  | some (c :: cs) => (c :: cs).length != 0
  | _ => false

/-- `transactionWithinDateRange`: the transaction date through
`parseBankingDate` (total), the bounds through the generic parser; an
unparsable bound is ignored, both bounds are inclusive. -/
def transactionWithinDateRange (fb : List Char → Option ℤ) (dateStr : List Char)
    (dstart dend : Option (List Char)) : Bool :=
  match parseBankingDate fb dateStr with
  | none => false
  | some d =>
    let lowOk : Bool := if boundGiven dstart then
        match fb (dstart.getD []) with
        | some s => decide (s ≤ d)
        | none => true
      else true
    let highOk : Bool := if boundGiven dend then
        match fb (dend.getD []) with
        | some e => decide (d ≤ e)
        | none => true
      else true
    lowOk && highOk

/-- One hour in milliseconds (`ONE_HOUR_MS`). -/
def oneHourMs : ℤ := 3600000

/-- The session-clustering loop shared by `truckingHours` and
`computeHoursForReasons`: `sessionStart` and `last` are the open
session's bounds; a gap over one hour closes the session, crediting
`(last + 1h) - sessionStart`, and the final session is closed the same
way. Returns total milliseconds. -/
def clusterMs (sessionStart last : ℤ) : List ℤ → ℤ
  | [] => (last + oneHourMs) - sessionStart
  | cur :: rest =>
    if cur - last ≤ oneHourMs then clusterMs sessionStart cur rest
    else ((last + oneHourMs) - sessionStart) + clusterMs cur cur rest

/-- Hours estimated from a timestamp list: zero on empty input,
otherwise the clustering loop's total converted to hours. -/
def hoursFromTimestamps : List ℤ → ℚ
  | [] => 0
  | t :: rest => mkRat (clusterMs t t rest) 3600000

/-- Ascending insertion of an integer timestamp (stable: equal keys keep
their order, as the comparator sort does). -/
def intInsert (x : ℤ) : List ℤ → List ℤ
  | [] => [x]
  | y :: rest => if y ≤ x then y :: intInsert x rest else x :: y :: rest

/-- Ascending stable sort of timestamps. -/
def intSort : List ℤ → List ℤ
  | [] => []
  | x :: rest => intInsert x (intSort rest)

/-- The timestamp list `computeHoursForReasons` clusters: dates of the
filter-matching transactions, with invalid dates removed (the
`!isNaN(d.getTime())` filter; `parseBankingDate` in fact never yields
one) and sorted ascending. -/
def relevantSorted (fb : List Char → Option ℤ) (reasons froms : List (List Char))
    (dstart dend : Option (List Char)) (ts : List BankingTransaction) : List ℤ :=
  intSort ((((ts.filter (fun t =>
    transactionMatchesReasons t.reason reasons &&
    transactionMatchesFroms t.fromText froms &&
    transactionWithinDateRange fb t.date dstart dend)).map
      (fun t => parseBankingDate fb t.date)).filter
        (fun d => d.isSome)).filterMap (fun d => d))

/-- `computeHoursForReasons`: filter, parse, sort, cluster. -/
def computeHoursForReasons (fb : List Char → Option ℤ) (reasons froms : List (List Char))
    (dstart dend : Option (List Char)) (ts : List BankingTransaction) : ℚ :=
  hoursFromTimestamps (relevantSorted fb reasons froms dstart dend ts)

/-- Merge outcome marker. -/
inductive MergeMode
  | merged
  | replaced
deriving DecidableEq

/-- Latest parsed date among stored transactions, the loop of
`saveOrMergeProfileData`: start at the epoch, skip empty and unparsable
dates, keep the strict maximum. -/
def latestExistingDate (fb : List Char → Option ℤ) (ts : List BankingTransaction) : ℤ :=
  ts.foldl (fun acc t =>
    if t.date = [] then acc
    else
      match parseDate fb t.date with
      | some d => if acc < d then d else acc
      | none => acc) 0

/-- Stable ascending insertion of a transaction by parsed date (the
`sort` comparator `parseBankingDate(a) - parseBankingDate(b)`; the
selection sorted here only holds valid dates). -/
def txDateInsert (fb : List Char → Option ℤ) (x : BankingTransaction) :
    List BankingTransaction → List BankingTransaction
  | [] => [x]
  | y :: rest =>
    if (parseDate fb y.date).getD 0 ≤ (parseDate fb x.date).getD 0 then
      y :: txDateInsert fb x rest
    else x :: y :: rest

/-- Stable ascending sort of transactions by parsed date. -/
def txDateSort (fb : List Char → Option ℤ) : List BankingTransaction → List BankingTransaction
  | [] => []
  | x :: rest => txDateInsert fb x (txDateSort fb rest)

/-- `ProfileManagerService.saveOrMergeProfileData`, its pure core: no
stored text replaces, otherwise incoming transactions dated strictly
after the latest stored date are appended (as raw rows, sorted
ascending) to the stored generic rows and re-exported. -/
def saveOrMergeProfileData (fb : List Char → Option ℤ) (existing incoming : List Char) :
    List Char × MergeMode × ℕ :=
  if existing = [] then (incoming, MergeMode.replaced, 0)
  else
    let existingBanking := parseBankingData fb existing
    let incomingBanking := parseBankingData fb incoming
    let latest := latestExistingDate fb existingBanking.transactions
    let incomingAfter := txDateSort fb (incomingBanking.transactions.filter (fun t =>
      if t.date = [] then false
      else
        match parseDate fb t.date with
        | some d => decide (latest < d)
        | none => false))
    if incomingAfter = [] then (existing, MergeMode.merged, 0)
    else
      let eg := parse defaultOpts existing
      let mergedRows := eg.rows ++ incomingAfter.map (fun t => t.rawRow)
      (exportToCSV ⟨eg.headers, mergedRows, mergedRows.length⟩,
        MergeMode.merged, incomingAfter.length)

/-! Helper lemmas and spec-side definitions. -/

theorem jsReplaceClass_eq_filter (p : Char → Bool) :
    ∀ l : List Char, jsReplaceClass p l = l.filter (fun c => !p c) := by
  intro l
  induction l with
  | nil => rfl
  | cons c rest ih => by_cases h : p c <;> simp [jsReplaceClass, h, ih]

/-- The amount-parsing algorithm exactly as the specification words it:
remove every `$`, `,`, `+` and whitespace character wherever it occurs,
read the sign off a leading `-` of the remainder, decimal-parse the
rest, NaN on failure. -/
def parseAmountSpec (s : List Char) : JsNum :=
  let remainder := s.filter (fun c => !amountStripChar c)
  let neg : Bool := match remainder with
    | '-' :: _ => true
    | _ => false
  let rest := match remainder with
    | '-' :: r => r
    | _ => remainder
  match parseFloatModel rest with
  | none => none
  | some q => some (if neg then qNeg q else q)

/-- C7: `parseAmount` strips `$`, `,`, `+` and whitespace everywhere,
treats a `-` at the start of the remainder as the sign, decimal-parses
the rest and yields NaN on failure; `+$500` gives 500, `-$2,500` gives
-2500, `abc` gives NaN and `$0` gives 0. -/
theorem claim_C7 :
    parseAmount (("+$500").toList) = some 500 ∧
    parseAmount (("-$2,500").toList) = some (-2500) ∧
    parseAmount (("abc").toList) = none ∧
    parseAmount (("$0").toList) = some 0 ∧
    ∀ s : List Char, parseAmount s = parseAmountSpec s := by
  refine ⟨by decide, by decide, by decide, by decide, ?_⟩
  intro s
  simp [parseAmount, parseAmountSpec, jsReplaceClass_eq_filter]

/-- C10: `parseAmount` is invariant under inserting (equivalently,
deleting) a stripped character at any position, so the strip acts
everywhere and not only on prefixes; `1,2,3` parses to 123 and `5 0 $`
to 50. -/
theorem claim_C10 :
    (∀ (pre suf : List Char) (c : Char), amountStripChar c = true →
      parseAmount (pre ++ c :: suf) = parseAmount (pre ++ suf)) ∧
    parseAmount (("1,2,3").toList) = some 123 ∧
    parseAmount (("5 0 $").toList) = some 50 := by
  refine ⟨?_, by decide, by decide⟩
  intro pre suf c hc
  simp [parseAmount, jsReplaceClass_eq_filter, List.filter_append, List.filter_cons, hc]

/-- Witness for C10 at a concrete insertion: a comma inserted into `12`
does not change the parse. -/
theorem claim_C10_witness :
    parseAmount (['1'] ++ ',' :: ['2']) = parseAmount (['1'] ++ ['2']) :=
  claim_C10.1 ['1'] ['2'] ',' (by decide)

/-- The options `new CSVParser({skipEmptyRows: false})` produces. -/
def noSkipOpts : CSVParseOptions := ⟨false, true, true⟩

theorem filterMapCongr {α β : Type} {f g : α → Option β} :
    ∀ {l : List α}, (∀ a ∈ l, f a = g a) → l.filterMap f = l.filterMap g := by
  intro l
  induction l with
  | nil => intro _; rfl
  | cons a t ih =>
    intro h
    rw [List.filterMap_cons, List.filterMap_cons, h a (List.mem_cons_self a t),
      ih (fun x hx => h x (List.mem_cons_of_mem a hx))]

/-- C9: disabling `skipEmptyRows` never changes the parse result, since
blank lines are already discarded by the initial line filter. -/
theorem claim_C9 :
    ∀ content : List Char, parse noSkipOpts content = parse defaultOpts content := by
  intro content
  simp only [parse]
  cases hl : (splitNl content).filter (fun l => decide (jsTrim l ≠ [])) with
  | nil => rfl
  | cons first rest =>
    have hmem : ∀ l ∈ rest, ¬(jsTrim l = []) := by
      intro l hlmem
      have hmem2 : l ∈ (splitNl content).filter (fun l => decide (jsTrim l ≠ [])) := by
        rw [hl]; exact List.mem_cons_of_mem _ hlmem
      simpa using List.of_mem_filter hmem2
    have hrows : rest.filterMap (fun l =>
        let line := jsTrim l
        if line = [] ∧ noSkipOpts.skipEmptyRows then none
        else
          let values := parseCSVLine line
          if values = [] then none
          else some (buildRow noSkipOpts (processHeaders noSkipOpts (parseCSVLine first)) values)) =
        rest.filterMap (fun l =>
        let line := jsTrim l
        if line = [] ∧ defaultOpts.skipEmptyRows then none
        else
          let values := parseCSVLine line
          if values = [] then none
          else some (buildRow defaultOpts (processHeaders defaultOpts (parseCSVLine first)) values)) := by
      refine filterMapCongr ?_
      intro l hlmem
      simp only [if_neg (by simp [hmem l hlmem] : ¬(jsTrim l = [] ∧ noSkipOpts.skipEmptyRows)),
        if_neg (by simp [hmem l hlmem] : ¬(jsTrim l = [] ∧ defaultOpts.skipEmptyRows))]
      rfl
    simp only [hrows]
    rfl

theorem jsSub_jsAdd_right (d w a : JsNum) : jsSub (jsAdd d a) w = jsAdd (jsSub d w) a := by
  cases d <;> cases w <;> cases a <;>
    simp only [jsSub, jsAdd, Option.some.injEq] <;>
    rw [qAdd_eq, qSub_eq, qSub_eq, qAdd_eq] <;> ring

theorem jsSub_jsAdd_abs (d w a : JsNum) (h : jsLt (some 0) a = false) :
    jsSub d (jsAdd w (jsAbs a)) = jsAdd (jsSub d w) a := by
  cases a with
  | none => cases d <;> cases w <;> simp [jsSub, jsAdd, jsAbs]
  | some q =>
    have hq : q ≤ 0 := by
      have h2 : qLt 0 q = false := h
      exact le_of_not_lt (fun hlt => by simp [(qLt_iff 0 q).mpr hlt] at h2)
    cases d <;> cases w <;>
      simp only [jsSub, jsAdd, jsAbs, Option.some.injEq] <;>
      rw [qSub_eq, qAdd_eq, qAbs_eq, qAdd_eq, qSub_eq, abs_of_nonpos hq] <;> ring

theorem calcSummaryAux_sub (ts : List BankingTransaction) :
    ∀ d w : JsNum, jsSub (calcSummaryAux d w ts).1 (calcSummaryAux d w ts).2 =
      ts.foldl (fun s t => jsAdd s t.amount) (jsSub d w) := by
  induction ts with
  | nil => intro d w; rfl
  | cons t ts ih =>
    intro d w
    by_cases h : jsLt (some 0) t.amount = true
    · simp only [calcSummaryAux, h, if_true, List.foldl_cons]
      rw [ih, jsSub_jsAdd_right]
    · simp only [calcSummaryAux, Bool.not_eq_true] at h ⊢
      rw [if_neg (by simp [h]), List.foldl_cons, ih, jsSub_jsAdd_abs _ _ _ h]

/-- A banking CSV whose first amount is unparsable (NaN) and whose
second is 5 dollars. -/
def nanCsv : List Char := ("\"Amount\"\n\"abc\"\n\"$5\"").toList

/-- A finite IEEE binary64 value as a canonical dyadic pair `(m, e)`
meaning `m * 2^e`, with `m` odd or zero. Exponent overflow and
underflow are not modelled (all values in play are mid-range). -/
abbrev F64 := ℤ × ℤ

/-- Number of binary digits of a natural number (fuel-based so that it
computes in the kernel). -/
def bitlenAux : ℕ → ℕ → ℕ
  | 0, _ => 0
  | fuel + 1, n => if n = 0 then 0 else bitlenAux fuel (n / 2) + 1

/-- Number of binary digits of a natural number. -/
def bitlen (n : ℕ) : ℕ := bitlenAux (n + 1) n

/-- Strip factors of two off a mantissa (fuel-based). -/
def canonAux : ℕ → ℕ → ℤ → ℕ × ℤ
  | 0, n, e => (n, e)
  | fuel + 1, n, e => if n ≠ 0 ∧ n % 2 = 0 then canonAux fuel (n / 2) (e + 1) else (n, e)

/-- Canonical dyadic form: zero is `(0, 0)`, otherwise the mantissa is
made odd. -/
def canonF (m e : ℤ) : F64 :=
  if m = 0 then (0, 0)
  else
    let p := canonAux m.natAbs m.natAbs e
    (if m < 0 then -(p.1 : ℤ) else (p.1 : ℤ), p.2)

/-- Round a positive dyadic `n * 2^e` to 53 significant bits with
round-to-nearest, ties to even. -/
def roundPos (n : ℕ) (e : ℤ) : ℕ × ℤ :=
  let b := bitlen n
  if b ≤ 53 then (n, e)
  else
    let s := b - 53
    let q := n / 2 ^ s
    let r := n % 2 ^ s
    let half := 2 ^ (s - 1)
    let q2 := if half < r ∨ (r = half ∧ q % 2 = 1) then q + 1 else q
    (q2, e + (s : ℤ))

/-- Round a dyadic `m * 2^e` to a binary64 value. -/
def roundDyadic (m e : ℤ) : F64 :=
  if m = 0 then (0, 0)
  else
    let p := roundPos m.natAbs e
    canonF (if m < 0 then -(p.1 : ℤ) else (p.1 : ℤ)) p.2

/-- float64 addition: exact dyadic sum, then rounding — this is IEEE
binary64 `+` (correct rounding of the exact result). -/
def fAdd (x y : F64) : F64 :=
  let e := min x.2 y.2
  roundDyadic (x.1 * ((2 ^ (x.2 - e).toNat : ℕ) : ℤ) + y.1 * ((2 ^ (y.2 - e).toNat : ℕ) : ℤ)) e

/-- float64 negation (exact). -/
def fNeg (x : F64) : F64 := (-x.1, x.2)

/-- float64 subtraction. -/
def fSub (x y : F64) : F64 := fAdd x (fNeg y)

/-- float64 absolute value (exact). -/
def fAbs (x : F64) : F64 := ((x.1.natAbs : ℤ), x.2)

/-- float64 strict order on values. -/
def fLtB (x y : F64) : Bool :=
  let e := min x.2 y.2
  decide (x.1 * ((2 ^ (x.2 - e).toNat : ℕ) : ℤ) < y.1 * ((2 ^ (y.2 - e).toNat : ℕ) : ℤ))

/-- NaN-propagating float64 addition. -/
def fAddJ : Option F64 → Option F64 → Option F64
  | some a, some b => some (fAdd a b)
  | _, _ => none

/-- NaN-propagating float64 subtraction. -/
def fSubJ : Option F64 → Option F64 → Option F64
  | some a, some b => some (fSub a b)
  | _, _ => none

/-- NaN-propagating float64 absolute value. -/
def fAbsJ : Option F64 → Option F64
  | some a => some (fAbs a)
  | none => none

/-- float64 `<` with NaN comparisons false. -/
def fLtJ : Option F64 → Option F64 → Bool
  | some a, some b => fLtB a b
  | _, _ => false

/-- Deposit/withdrawal/net summary over float64 amounts. -/
structure SummaryF where
  deposits : Option F64
  withdrawals : Option F64
  netChange : Option F64
deriving DecidableEq

/-- The `calculateSummary` loop over float64 amounts: same branching as
`calcSummaryAux`, with rounding arithmetic. -/
def calcSummaryAuxF (d w : Option F64) : List (Option F64) → Option F64 × Option F64
  | [] => (d, w)
  | a :: ts =>
    if fLtJ (some (0, 0)) a then calcSummaryAuxF (fAddJ d a) w ts
    else calcSummaryAuxF d (fAddJ w (fAbsJ a)) ts

/-- `calculateSummary` over the amounts of a transaction list, in the
float64 model. -/
def calculateSummaryF (amts : List (Option F64)) : SummaryF :=
  let p := calcSummaryAuxF (some (0, 0)) (some (0, 0)) amts
  ⟨p.1, p.2, fSubJ p.1 p.2⟩

/-- `calculateTotalAmount` over float64 amounts. -/
def calculateTotalAmountF (amts : List (Option F64)) : Option F64 :=
  amts.foldl fAddJ (some (0, 0))

/-- Exact rational value of a binary64 datum. -/
def valF (x : F64) : ℚ :=
  if 0 ≤ x.2 then mkRat (x.1 * ((2 ^ x.2.toNat : ℕ) : ℤ)) 1
  else mkRat x.1 (2 ^ (-x.2).toNat)

/-- The binary64 value nearest 0.1 (`3602879701896397 * 2^-55`). -/
def d01 : F64 := (3602879701896397, -55)

/-- The binary64 value nearest 0.2. -/
def d02 : F64 := (3602879701896397, -54)

/-- The binary64 value nearest 0.3. -/
def d03 : F64 := (5404319552844595, -54)

/-- C1 counterexample: under real float64 rounding the amounts
0.1, -0.3, 0.2 give `totalAmount = 2^-55` (the running signed sum) but
`netChange = deposits - withdrawals = 2^-54`, because deposits group
0.1 + 0.2 with a rounding the signed sum does not perform — so the
claimed universal `totalAmount = netChange` is false of the program.
The first six conjuncts certify that the three constants are genuine
doubles (53-bit mantissas) and each within half an ulp of its decimal,
hence exactly what `parseFloat` produces for 0.1, 0.2, 0.3. -/
theorem claim_C1_counterexample :
    d01.1.natAbs < 2 ^ 53 ∧ d02.1.natAbs < 2 ^ 53 ∧ d03.1.natAbs < 2 ^ 53 ∧
    qLt (qAbs (qSub (mkRat 1 10) (valF d01))) (mkRat 1 (2 ^ 57)) = true ∧
    qLt (qAbs (qSub (mkRat 1 5) (valF d02))) (mkRat 1 (2 ^ 56)) = true ∧
    qLt (qAbs (qSub (mkRat 3 10) (valF d03))) (mkRat 1 (2 ^ 55)) = true ∧
    calculateTotalAmountF [some d01, some (fNeg d03), some d02] = some (1, -55) ∧
    (calculateSummaryF [some d01, some (fNeg d03), some d02]).netChange = some (1, -54) ∧
    calculateTotalAmountF [some d01, some (fNeg d03), some d02] ≠
      (calculateSummaryF [some d01, some (fNeg d03), some d02]).netChange := by
  refine ⟨by decide, by decide, by decide, by decide, by decide, by decide, by decide,
    by decide, by decide⟩

/-- C1 amended: `netChange = deposits - withdrawals` holds universally
— in the float64 model too, since the source computes `netChange` as
exactly that difference — while `totalAmount = netChange` holds only in
the exact-arithmetic idealization of float64 (where it also covers NaN
amounts, all three quantities becoming NaN together, as the concrete
`nanCsv` conjuncts show); under float64 rounding it fails, see the
counterexample. -/
theorem claim_C1_amended :
    (∀ (fb : List Char → Option ℤ) (content : List Char),
      (parseBankingData fb content).summary.netChange =
        jsSub (parseBankingData fb content).summary.deposits
          (parseBankingData fb content).summary.withdrawals) ∧
    (∀ amts : List (Option F64),
      (calculateSummaryF amts).netChange =
        fSubJ (calculateSummaryF amts).deposits (calculateSummaryF amts).withdrawals) ∧
    (∀ (fb : List Char → Option ℤ) (content : List Char),
      (parseBankingData fb content).totalAmount =
        (parseBankingData fb content).summary.netChange) ∧
    (parseBankingData noFb nanCsv).totalAmount = none ∧
    (parseBankingData noFb nanCsv).summary.netChange = none := by
  refine ⟨fun fb content => rfl, fun amts => rfl, ?_, by decide, by decide⟩
  intro fb content
  have h := calcSummaryAux_sub (parseTransactions (parse defaultOpts content)) (some 0) (some 0)
  have h0 : jsSub (some 0) (some 0) = (some 0 : JsNum) := by simp [jsSub, qSub_eq]
  rw [h0] at h
  exact h.symm

/-- A transaction whose amount is exactly zero. -/
def zeroTx : BankingTransaction := ⟨[], [], [], [], some 0, [], [], []⟩

/-- A banking table holding only the zero-amount transaction. -/
def zeroTable : BankingCSVTable :=
  ⟨[zeroTx], 1, some 0, some 0, ([], []), ⟨some 0, some 0, some 0⟩⟩

theorem calcSummaryAux_fst (ts : List BankingTransaction) :
    ∀ d w : JsNum, (calcSummaryAux d w ts).1 =
      ((ts.filter (fun t => jsLt (some 0) t.amount)).map (fun t => t.amount)).foldl jsAdd d := by
  induction ts with
  | nil => intro d w; rfl
  | cons t ts ih =>
    intro d w
    by_cases h : jsLt (some 0) t.amount = true <;>
      simp [calcSummaryAux, h, List.filter_cons, ih]

theorem calcSummaryAux_snd (ts : List BankingTransaction) :
    ∀ d w : JsNum, (calcSummaryAux d w ts).2 =
      ((ts.filter (fun t => !jsLt (some 0) t.amount)).map
        (fun t => jsAbs t.amount)).foldl jsAdd w := by
  induction ts with
  | nil => intro d w; rfl
  | cons t ts ih =>
    intro d w
    by_cases h : jsLt (some 0) t.amount = true <;>
      simp [calcSummaryAux, h, List.filter_cons, ih]

/-- C4: the summary counts `amount > 0` as a deposit and everything
else (zero included) into withdrawals as `|amount|`, while the type
filter uses strict `amount > 0` and `amount < 0`; a zero-amount
transaction therefore adds zero to the withdrawal total yet appears in
neither filtered list. -/
theorem claim_C4 :
    (∀ ts : List BankingTransaction,
      (calculateSummary ts).deposits =
        ((ts.filter (fun t => jsLt (some 0) t.amount)).map
          (fun t => t.amount)).foldl jsAdd (some 0) ∧
      (calculateSummary ts).withdrawals =
        ((ts.filter (fun t => !jsLt (some 0) t.amount)).map
          (fun t => jsAbs t.amount)).foldl jsAdd (some 0)) ∧
    (∀ table : BankingCSVTable,
      getTransactionsByType table TxType.deposits =
        table.transactions.filter (fun t => jsLt (some 0) t.amount) ∧
      getTransactionsByType table TxType.withdrawals =
        table.transactions.filter (fun t => jsLt t.amount (some 0))) ∧
    calculateSummary [zeroTx] = ⟨some 0, some 0, some 0⟩ ∧
    getTransactionsByType zeroTable TxType.deposits = [] ∧
    getTransactionsByType zeroTable TxType.withdrawals = [] := by
  refine ⟨?_, ?_, by decide, by decide, by decide⟩
  · intro ts
    exact ⟨calcSummaryAux_fst ts (some 0) (some 0), calcSummaryAux_snd ts (some 0) (some 0)⟩
  · intro table
    exact ⟨rfl, rfl⟩

/-- Session splitting exactly as the specification words it: the first
timestamp starts a session; each later timestamp extends the current
session when its gap from the previous timestamp is at most one hour,
and otherwise closes it and starts a new one. `cs` is the current
session, reversed. -/
def sessionsAux (cs : List ℤ) (last : ℤ) : List ℤ → List (List ℤ)
  | [] => [cs.reverse]
  | c :: rest =>
    if c - last ≤ oneHourMs then sessionsAux (c :: cs) c rest
    else cs.reverse :: sessionsAux [c] c rest

/-- The sessions of a timestamp list. -/
def sessionsOf : List ℤ → List (List ℤ)
  | [] => []
  | t :: ts => sessionsAux [t] t ts

/-- A session's credited duration in milliseconds:
`(last timestamp + 1 hour) - first timestamp`. -/
def sessionDurMs (s : List ℤ) : ℤ :=
  (s.getLast?.getD 0 + oneHourMs) - (s.head?.getD 0)

/-- Total estimated hours per the specification: sum of the session
durations, in hours. -/
def specSessionHours (l : List ℤ) : ℚ :=
  mkRat (((sessionsOf l).map sessionDurMs).sum) 3600000

theorem sessionsAux_sum (rest : List ℤ) :
    ∀ (cs : List ℤ) (s l : ℤ), cs ≠ [] → cs.head? = some l → cs.getLast? = some s →
      ((sessionsAux cs l rest).map sessionDurMs).sum = clusterMs s l rest := by
  induction rest with
  | nil =>
    intro cs s l hne hh hl
    simp only [sessionsAux, List.map_cons, List.map_nil, List.sum_cons, List.sum_nil,
      sessionDurMs, List.head?_reverse, List.getLast?_reverse, hh, hl, clusterMs]
    simp
  | cons c rest ih =>
    intro cs s l hne hh hl
    by_cases hgap : c - l ≤ oneHourMs
    · simp only [sessionsAux, hgap, if_true, clusterMs]
      refine ih (c :: cs) s c (by simp) rfl ?_
      cases cs with
      | nil => exact absurd rfl hne
      | cons d t => rw [List.getLast?_cons_cons]; exact hl
    · simp only [sessionsAux, hgap, if_false, clusterMs, List.map_cons, List.sum_cons]
      rw [ih [c] c c (by simp) rfl rfl]
      congr 1
      simp only [sessionDurMs, List.head?_reverse, List.getLast?_reverse, hh, hl]
      simp

/-- A transaction carrying only a date (enough for the time-tracking
pipeline: empty reason and sender match the match-all filters). -/
def txWithDate (d : List Char) : BankingTransaction :=
  ⟨[], [], [], [], some 0, [], d, []⟩

/-- The three transactions of the session-clustering example:
10:00, 10:30 and 13:00 on the same day. -/
def hoursExampleTxs : List BankingTransaction :=
  [txWithDate (("07/Aug/2025 10:00").toList),
   txWithDate (("07/Aug/2025 10:30").toList),
   txWithDate (("07/Aug/2025 13:00").toList)]

/-- C2: on a sorted timestamp list the clustering loop computes exactly
the specification's session decomposition (sessions split at gaps over
one hour, each credited `last + 1h - start`), empty input gives zero,
and the `[10:00, 10:30, 13:00]` example gives 1.5h + 1h = 2.5 hours,
also through the full `computeHoursForReasons` pipeline. -/
theorem claim_C2 :
    (∀ l : List ℤ, List.Sorted (fun a b => a ≤ b) l →
      hoursFromTimestamps l = specSessionHours l) ∧
    hoursFromTimestamps [] = 0 ∧
    hoursFromTimestamps
      [mkDateJs 2025 7 7 10 0, mkDateJs 2025 7 7 10 30, mkDateJs 2025 7 7 13 0] = mkRat 5 2 ∧
    computeHoursForReasons noFb [] [] none none hoursExampleTxs = mkRat 5 2 := by
  refine ⟨?_, rfl, by decide, by decide⟩
  intro l _
  cases l with
  | nil => decide
  | cons t rest =>
    show mkRat (clusterMs t t rest) 3600000 = mkRat (((sessionsAux [t] t rest).map sessionDurMs).sum) 3600000
    rw [sessionsAux_sum rest [t] t t (by simp) rfl rfl]

/-- Witness for C2: the sorted-list clause applied to the concrete
timestamps 0ms, 30min, 3h. -/
theorem claim_C2_witness :
    hoursFromTimestamps [0, 1800000, 10800000] = specSessionHours [0, 1800000, 10800000] :=
  claim_C2.1 [0, 1800000, 10800000] (by decide)

theorem bumpMonthly_countSum (k : MonthKey) (t : BankingTransaction) :
    ∀ l : List (MonthKey × MonthlyBucket),
      ((bumpMonthly k t l).map (fun p => p.2.count)).sum =
        (l.map (fun p => p.2.count)).sum + 1 := by
  intro l
  induction l with
  | nil => simp [bumpMonthly, bucketAdd, emptyBucket]
  | cons p rest ih =>
    by_cases h : p.1 = k
    · simp only [bumpMonthly, h, if_true]
      simp [bucketAdd]
      omega
    · cases p with
    | mk kk b =>
      simp only [bumpMonthly] at *
      simp only [if_neg (by simpa using h)]
      simp [ih]
      omega

theorem getMonthlySummary_countAux (fb : List Char → Option ℤ) :
    ∀ (ts : List BankingTransaction) (acc : List (MonthKey × MonthlyBucket)),
      ((ts.foldl (fun acc t => bumpMonthly (monthKeyOf (parseDate fb t.date)) t acc) acc).map
        (fun p => p.2.count)).sum = (acc.map (fun p => p.2.count)).sum + ts.length := by
  intro ts
  induction ts with
  | nil => intro acc; simp
  | cons t rest ih =>
    intro acc
    simp only [List.foldl_cons, List.length_cons, ih, bumpMonthly_countSum]
    omega

theorem parseBankingDate_isSome (fb : List Char → Option ℤ) (s : List Char) :
    (parseBankingDate fb s).isSome = true := by
  rw [parseBankingDate]
  cases regexSearchDate s with
  | some caps => rfl
  | none =>
    cases fb s with
    | some t => rfl
    | none => rfl

theorem intInsert_length (x : ℤ) : ∀ l : List ℤ, (intInsert x l).length = l.length + 1 := by
  intro l
  induction l with
  | nil => rfl
  | cons y rest ih => by_cases h : y ≤ x <;> simp [intInsert, h, ih]

theorem intSort_length : ∀ l : List ℤ, (intSort l).length = l.length := by
  intro l
  induction l with
  | nil => rfl
  | cons y rest ih => simp [intSort, intInsert_length, ih]

theorem filterMap_id_length_of_isSome :
    ∀ l : List (Option ℤ), (∀ x ∈ l, x.isSome = true) →
      (l.filterMap (fun d => d)).length = l.length := by
  intro l
  induction l with
  | nil => intro _; rfl
  | cons x rest ih =>
    intro h
    cases x with
    | none => exact absurd (h none (by simp)) (by simp)
    | some v => simp [List.filterMap_cons, ih (fun y hy => h y (by simp [hy]))]

/-- A transaction whose date string matches neither the banking pattern
nor (for the chosen fallback) generic date parsing, with amount 5. -/
def badDateTx : BankingTransaction :=
  ⟨("1").toList, [], [], [], some 5, [], ("not a date").toList, []⟩

/-- C5 counterexample: a transaction with an unparsable date is not
excluded — the monthly rollup gives it a `NaN-NaN` bucket, the
session-clustering estimate counts its epoch-mapped timestamp as a full
one-hour session, and its raw string becomes both ends of the computed
date range. -/
theorem claim_C5_counterexample :
    getMonthlySummary noFb [badDateTx] =
      [(MonthKey.nan, ⟨1, some 5, some 5, some 0⟩)] ∧
    computeHoursForReasons noFb [] [] none none [badDateTx] = 1 ∧
    getDateRange noFb [badDateTx] = (("not a date").toList, ("not a date").toList) := by
  refine ⟨by decide, by decide, by decide⟩

/-- C5 amended: a transaction whose date fails both parses is treated
as follows — in the monthly rollup it contributes one count to the
`NaN-NaN` bucket (every transaction contributes exactly one bucket
count), in the session-clustering estimate it contributes the epoch
timestamp (every filter-matching transaction contributes exactly one
timestamp), and in the date-range computation its raw date string
remains a candidate and can be reported as the range. -/
theorem claim_C5_amended :
    (∀ (fb : List Char → Option ℤ) (ts : List BankingTransaction),
      ((getMonthlySummary fb ts).map (fun p => p.2.count)).sum = ts.length) ∧
    (∀ (fb : List Char → Option ℤ) (reasons froms : List (List Char))
      (dstart dend : Option (List Char)) (ts : List BankingTransaction),
      (relevantSorted fb reasons froms dstart dend ts).length =
        (ts.filter (fun t =>
          transactionMatchesReasons t.reason reasons &&
          transactionMatchesFroms t.fromText froms &&
          transactionWithinDateRange fb t.date dstart dend)).length) ∧
    getDateRange noFb [badDateTx] = (("not a date").toList, ("not a date").toList) := by
  refine ⟨?_, ?_, by decide⟩
  · intro fb ts
    simpa using getMonthlySummary_countAux fb ts []
  · intro fb reasons froms dstart dend ts
    rw [relevantSorted, intSort_length]
    rw [List.filter_eq_self.mpr (by
      intro x hx
      rcases List.mem_map.mp hx with ⟨t, _, rfl⟩
      exact parseBankingDate_isSome fb t.date)]
    rw [filterMap_id_length_of_isSome _ (by
      intro x hx
      rcases List.mem_map.mp hx with ⟨t, _, rfl⟩
      exact parseBankingDate_isSome fb t.date)]
    rw [List.length_map]

theorem jan_feb_days (yy : ℤ) : daysFromCivil yy 2 1 = daysFromCivil yy 1 1 + 31 := by
  have c1 : Int.fdiv (153 * ((2:ℤ) + 9) + 2) 5 = 337 := by decide
  have c2 : Int.fdiv (153 * ((1:ℤ) + 9) + 2) 5 = 306 := by decide
  simp only [daysFromCivil, show ((2:ℤ) ≤ 2) = True by simp, show ((1:ℤ) ≤ 2) = True by simp,
    show ((2:ℤ) < 2) = False by simp, show ((2:ℤ) < 1) = False by simp, if_true, if_false,
    c1, c2]
  ring

/-- A date string whose month token `Xyz` is a three-letter word but no
month abbreviation, and whose day field is `00`. -/
def unknownMonthDate : List Char := ("00/Xyz/2025 10:00").toList

/-- C8 counterexample: `00/Xyz/2025 10:00` matches the pattern with an
unmatched month token, so month index 0 is used — but the constructed
instant is 31/Dec/2024, not a date in January 2025; and a matched
four-digit year below 100 (here `0042`) is shifted into 1900–1999 by
the `Date` constructor, landing in January 1942 rather than year 42. -/
theorem claim_C8_counterexample :
    regexSearchDate unknownMonthDate = some (0, ("Xyz").toList, 2025, 10, 0) ∧
    monthAssoc (("Xyz").toList) = none ∧
    parseDate noFb unknownMonthDate = some (mkDateJs 2025 0 0 10 0) ∧
    mkDateJs 2025 0 0 10 0 < mkDateJs 2025 0 1 0 0 ∧
    civilFromDays (Int.fdiv (mkDateJs 2025 0 0 10 0) 86400000) = (2024, 12, 31) ∧
    parseDate noFb (("01/Xyz/0042 10:00").toList) = some (mkDateJs 42 0 1 10 0) ∧
    civilFromDays (Int.fdiv (mkDateJs 42 0 1 10 0) 86400000) = (1942, 1, 1) := by
  refine ⟨by decide, by decide, by decide, by decide, by decide, by decide, by decide⟩

/-- C8 amended: on a pattern match whose month token is unmatched,
`parseDate` silently uses month index 0 (January) of the captured year
in the `Date` constructor; the result actually lies inside January of
that year only when the captured day is in 1..31, the hour at most 23,
the minute at most 59 and the year at least 100 (smaller years are
shifted by 1900); a string with no pattern match falls back to generic
date parsing of the raw string. -/
theorem claim_C8_amended :
    (∀ (fb : List Char → Option ℤ) (s : List Char) (d : ℕ) (mon : List Char) (y h mi : ℕ),
      regexSearchDate s = some (d, mon, y, h, mi) → monthAssoc mon = none →
      parseDate fb s = some (mkDateJs y 0 d h mi)) ∧
    (∀ y d h mi : ℕ, 100 ≤ y → 1 ≤ d → d ≤ 31 → h ≤ 23 → mi ≤ 59 →
      mkDateJs y 0 1 0 0 ≤ mkDateJs y 0 d h mi ∧
      mkDateJs y 0 d h mi < mkDateJs y 1 1 0 0) ∧
    (∀ (fb : List Char → Option ℤ) (s : List Char),
      regexSearchDate s = none → parseDate fb s = fb s) := by
  refine ⟨?_, ?_, ?_⟩
  · intro fb s d mon y h mi hsearch hmon
    simp only [parseDate, hsearch, getMonthIndex, hmon, Option.getD_none]
  · intro y d h mi hy h1 h2 h3 h4
    have hyy : ¬((y : ℕ) ≤ 99) := by omega
    simp only [mkDateJs, if_neg hyy]
    push_cast
    rw [jan_feb_days]
    constructor
    · generalize daysFromCivil (y : ℤ) 1 1 = B
      omega
    · generalize daysFromCivil (y : ℤ) 1 1 = B
      omega
  · intro fb s hsearch
    simp only [parseDate, hsearch]

/-- Witness for C8: the amended clauses applied to `07/Qqq/2025 23:13`
(unmatched month, in-range day and time) and to a non-matching string. -/
theorem claim_C8_witness :
    parseDate noFb (("07/Qqq/2025 23:13").toList) = some (mkDateJs 2025 0 7 23 13) ∧
    (mkDateJs 2025 0 1 0 0 ≤ mkDateJs 2025 0 7 23 13 ∧
      mkDateJs 2025 0 7 23 13 < mkDateJs 2025 1 1 0 0) ∧
    parseDate noFb (("hello").toList) = noFb (("hello").toList) :=
  ⟨claim_C8_amended.1 noFb (("07/Qqq/2025 23:13").toList) 7 (("Qqq").toList) 2025 23 13
      (by decide) (by decide),
   claim_C8_amended.2.1 2025 7 23 13 (by decide) (by decide) (by decide) (by decide) (by decide),
   claim_C8_amended.2.2 noFb (("hello").toList) (by decide)⟩

/-- The merge cutoff the code actually uses: the maximum of the epoch
and every successfully-parsed stored date. The source loop starts its
accumulator at `new Date(0)`, so the epoch floor applies always — also
when stored dates parse but all lie before 1970 — not only when nothing
parses. -/
def specCutoff (fb : List Char → Option ℤ) (ets : List BankingTransaction) : ℤ :=
  (ets.filterMap (fun t => parseDate fb t.date)).foldl max 0

set_option maxRecDepth 20000 in
theorem latestExistingDate_eq (fb : List Char → Option ℤ) (hfb : fb [] = none) :
    ∀ (ts : List BankingTransaction) (acc : ℤ),
      ts.foldl (fun acc t =>
        if t.date = [] then acc
        else
          match parseDate fb t.date with
          | some d => if acc < d then d else acc
          | none => acc) acc =
      (ts.filterMap (fun t => parseDate fb t.date)).foldl max acc := by
  intro ts
  induction ts with
  | nil => intro acc; rfl
  | cons t rest ih =>
    intro acc
    by_cases hd : t.date = []
    · have hpd : parseDate fb [] = none := by
        rw [parseDate]
        exact hfb
      simp [List.foldl_cons, List.filterMap_cons, hd, hpd, ih]
    · cases hp : parseDate fb t.date with
      | some d =>
        simp only [List.foldl_cons, List.filterMap_cons, hp, if_neg hd, ih]
        congr 1
        rcases le_or_lt d acc with hle | hlt
        · rw [if_neg (not_lt.mpr hle), max_eq_left hle]
        · rw [if_pos hlt, max_eq_right hlt.le]
      | none => simp only [List.foldl_cons, List.filterMap_cons, hp, if_neg hd, ih]

/-- Stored CSV whose only (successfully parsed) date is 01/Jan/1960. -/
def merge1960ExistingCsv : List Char :=
  ("\"\",\"From\",\"Routing\",\"Reason\",\"Amount\",\"Balance\",\"Date\"\n\"1\",\"A\",\"R1\",\"Pay\",\"+$10\",\"100\",\"01/Jan/1960 00:00\"").toList

/-- Incoming CSV with one row dated 02/Jan/1960, strictly newer than
everything stored. -/
def merge1960IncomingCsv : List Char :=
  ("\"\",\"From\",\"Routing\",\"Reason\",\"Amount\",\"Balance\",\"Date\"\n\"2\",\"B\",\"R2\",\"Tip\",\"+$20\",\"120\",\"02/Jan/1960 00:00\"").toList

set_option maxRecDepth 20000 in
/-- C3 counterexample: the stored profile has exactly one transaction,
dated 01/Jan/1960, and the incoming data exactly one, dated 02/Jan/1960
— strictly after the maximum successfully-parsed stored date. The claim
says this row is appended with `addedCount = 1`; the program instead
returns the stored text unchanged with `addedCount = 0`, because its
cutoff accumulator starts at `new Date(0)` and both 1960 dates are
negative timestamps, below the epoch floor. -/
theorem claim_C3_counterexample :
    ((parseBankingData noFb merge1960ExistingCsv).transactions.map
        (fun t => parseDate noFb t.date)) = [some (mkDateJs 1960 0 1 0 0)] ∧
    ((parseBankingData noFb merge1960IncomingCsv).transactions.map
        (fun t => parseDate noFb t.date)) = [some (mkDateJs 1960 0 2 0 0)] ∧
    mkDateJs 1960 0 1 0 0 < mkDateJs 1960 0 2 0 0 ∧
    merge1960ExistingCsv ≠ [] ∧
    saveOrMergeProfileData noFb merge1960ExistingCsv merge1960IncomingCsv =
      (merge1960ExistingCsv, MergeMode.merged, 0) := by
  refine ⟨by decide, by decide, by decide, by decide, by decide⟩

/-- Stored CSV used in the merge example, ending at 07/Aug/2025 20:00. -/
def mergeExistingCsv : List Char :=
  ("\"\",\"From\",\"Routing\",\"Reason\",\"Amount\",\"Balance\",\"Date\"\n\"1\",\"A\",\"R1\",\"Pay\",\"+$10\",\"100\",\"07/Aug/2025 20:00\"").toList

/-- Incoming CSV of the merge example: one row at 19:00 (older than the
cutoff) and one at 21:00 (newer). -/
def mergeIncomingCsv : List Char :=
  ("\"\",\"From\",\"Routing\",\"Reason\",\"Amount\",\"Balance\",\"Date\"\n\"2\",\"B\",\"R2\",\"Tip\",\"+$20\",\"120\",\"07/Aug/2025 19:00\"\n\"3\",\"C\",\"R3\",\"Fee\",\"-$5\",\"115\",\"07/Aug/2025 21:00\"").toList

/-- What the merge example must produce: the stored rows re-exported
(with the recovered `TransactionID` header) plus only the 21:00 row. -/
def mergeExpectedCsv : List Char :=
  ("\"TransactionID\",\"From\",\"Routing\",\"Reason\",\"Amount\",\"Balance\",\"Date\"\n\"1\",\"A\",\"R1\",\"Pay\",\"+$10\",\"100\",\"07/Aug/2025 20:00\"\n\"3\",\"C\",\"R3\",\"Fee\",\"-$5\",\"115\",\"07/Aug/2025 21:00\"").toList

set_option maxRecDepth 20000 in
/-- C3 amended: with stored data present, the merge appends exactly the
incoming transactions whose parsed date is strictly greater than the
maximum of the epoch and the successfully-parsed stored dates (the
cutoff accumulator starts at `new Date(0)`, so pre-1970 incoming rows
are dropped even when newer than everything stored — see the
counterexample), sorted ascending, to the stored generic rows,
returning mode `merged` and their count (and the stored text unchanged
when that selection is empty); on the concrete 20:00/19:00+21:00
example only the 21:00 row is appended and `addedCount = 1`. The
hypothesis `fb [] = none` records that the generic parser rejects the
empty string, as `new Date('')` does. -/
theorem claim_C3_amended :
    (∀ (fb : List Char → Option ℤ), fb [] = none →
      ∀ existing incoming : List Char, existing ≠ [] →
      saveOrMergeProfileData fb existing incoming =
        (let cut := specCutoff fb (parseBankingData fb existing).transactions
         let sel := txDateSort fb ((parseBankingData fb incoming).transactions.filter (fun t =>
           match parseDate fb t.date with
           | some d => decide (cut < d)
           | none => false))
         if sel = [] then (existing, MergeMode.merged, 0)
         else
           (exportToCSV ⟨(parse defaultOpts existing).headers,
             (parse defaultOpts existing).rows ++ sel.map (fun t => t.rawRow),
             ((parse defaultOpts existing).rows ++ sel.map (fun t => t.rawRow)).length⟩,
            MergeMode.merged, sel.length))) ∧
    saveOrMergeProfileData noFb mergeExistingCsv mergeIncomingCsv =
      (mergeExpectedCsv, MergeMode.merged, 1) := by
  refine ⟨?_, by decide⟩
  intro fb hfb existing incoming hex
  rw [saveOrMergeProfileData, if_neg hex]
  have hfilter : (parseBankingData fb incoming).transactions.filter (fun t =>
        if t.date = [] then false
        else match parseDate fb t.date with
          | some d => decide (latestExistingDate fb (parseBankingData fb existing).transactions < d)
          | none => false) =
      (parseBankingData fb incoming).transactions.filter (fun t =>
        match parseDate fb t.date with
        | some d => decide (specCutoff fb (parseBankingData fb existing).transactions < d)
        | none => false) := by
    have hcut : latestExistingDate fb (parseBankingData fb existing).transactions =
        specCutoff fb (parseBankingData fb existing).transactions :=
      latestExistingDate_eq fb hfb _ 0
    rw [hcut]
    refine List.filter_congr ?_
    intro t _
    by_cases hd : t.date = []
    · have hpd : parseDate fb [] = none := by
        rw [parseDate]
        exact hfb
      simp [hd, hpd]
    · simp [hd]
  simp only [hfilter]

/-- Witness for C3: the universal amended merge clause applied to the
concrete example profile data. -/
theorem claim_C3_witness :
    saveOrMergeProfileData noFb mergeExistingCsv mergeIncomingCsv =
      (let cut := specCutoff noFb (parseBankingData noFb mergeExistingCsv).transactions
       let sel := txDateSort noFb
         ((parseBankingData noFb mergeIncomingCsv).transactions.filter (fun t =>
           match parseDate noFb t.date with
           | some d => decide (cut < d)
           | none => false))
       if sel = [] then (mergeExistingCsv, MergeMode.merged, 0)
       else
         (exportToCSV ⟨(parse defaultOpts mergeExistingCsv).headers,
           (parse defaultOpts mergeExistingCsv).rows ++ sel.map (fun t => t.rawRow),
           ((parse defaultOpts mergeExistingCsv).rows ++ sel.map (fun t => t.rawRow)).length⟩,
          MergeMode.merged, sel.length)) :=
  claim_C3_amended.1 noFb rfl mergeExistingCsv mergeIncomingCsv (by decide)

/-- A field value safe for the quoted export/reparse cycle: no literal
quote, no newline, and unchanged by trimming. -/
def goodField (s : List Char) : Prop := '"' ∉ s ∧ '\n' ∉ s ∧ jsTrim s = s

instance goodFieldDecidable (s : List Char) : Decidable (goodField s) :=
  decidable_of_iff ('"' ∉ s ∧ '\n' ∉ s ∧ jsTrim s = s) Iff.rfl

/-- A single-column table whose only value carries leading whitespace
(and no quote character anywhere). -/
def trimTable : CSVTable := ⟨[("h").toList], [[(("h").toList, (" x").toList)]], 1⟩

/-- C6 counterexample: a table free of literal quotes whose round trip
is not identity — the parser trims the leading space off the value, so
`export(parse(export(T)))` differs from `export(T)`. -/
theorem claim_C6_counterexample :
    (∀ h ∈ trimTable.headers, '"' ∉ h) ∧
    (∀ r ∈ trimTable.rows, ∀ h ∈ trimTable.headers, '"' ∉ rowGet r h) ∧
    exportToCSV (parse defaultOpts (exportToCSV trimTable)) ≠ exportToCSV trimTable := by
  refine ⟨by decide, by decide, by decide⟩

theorem splitNl_no_nl : ∀ l : List Char, '\n' ∉ l → splitNl l = [l] := by
  intro l
  induction l with
  | nil => intro _; rfl
  | cons c rest ih =>
    intro h
    have hc : ¬(c = '\n') := fun hc => h (hc ▸ List.mem_cons_self c rest)
    rw [splitNl, if_neg hc, ih (fun hm => h (List.mem_cons_of_mem _ hm))]

theorem splitNl_append_nl : ∀ l : List Char, '\n' ∉ l → ∀ rest : List Char,
    splitNl (l ++ '\n' :: rest) = l :: splitNl rest := by
  intro l
  induction l with
  | nil => intro _ rest; simp [splitNl]
  | cons c t ih =>
    intro h rest
    have hc : ¬(c = '\n') := fun hc => h (hc ▸ List.mem_cons_self c t)
    rw [List.cons_append, splitNl, if_neg hc, ih (fun hm => h (List.mem_cons_of_mem _ hm)) rest]

theorem splitNl_intercalate : ∀ ls : List (List Char), ls ≠ [] → (∀ l ∈ ls, '\n' ∉ l) →
    splitNl (List.intercalate ['\n'] ls) = ls := by
  intro ls
  induction ls with
  | nil => intro h; exact absurd rfl h
  | cons l rest ih =>
    intro _ hmem
    cases rest with
    | nil =>
      rw [show List.intercalate ['\n'] [l] = l by simp [List.intercalate]]
      exact splitNl_no_nl l (hmem l (List.mem_cons_self l []))
    | cons l2 t =>
      rw [show List.intercalate ['\n'] (l :: l2 :: t) =
          l ++ '\n' :: List.intercalate ['\n'] (l2 :: t) by
        simp [List.intercalate, List.intersperse_cons_cons]]
      rw [splitNl_append_nl l (hmem l (List.mem_cons_self l _)) _,
        ih (by simp) (fun x hx => hmem x (List.mem_cons_of_mem _ hx))]

theorem joinComma_single (x : List Char) : joinComma [x] = x := by
  simp [joinComma, List.intercalate]

theorem joinComma_cons (x : List Char) (ys : List (List Char)) (h : ys ≠ []) :
    joinComma (x :: ys) = x ++ ',' :: joinComma ys := by
  cases ys with
  | nil => exact absurd rfl h
  | cons y t => simp [joinComma, List.intercalate, List.intersperse_cons_cons]

theorem quotedLine_shape : ∀ fs : List (List Char), fs ≠ [] →
    ∃ m : List Char, joinComma (fs.map quoteField) = '"' :: (m ++ ['"']) := by
  intro fs
  induction fs with
  | nil => intro h; exact absurd rfl h
  | cons f rest ih =>
    intro _
    cases rest with
    | nil => exact ⟨f, by simp [joinComma_single, quoteField]⟩
    | cons f2 t =>
      rcases ih (by simp) with ⟨m, hm⟩
      refine ⟨f ++ '"' :: ',' :: '"' :: m, ?_⟩
      rw [List.map_cons, joinComma_cons _ _ (by simp), hm, quoteField]
      simp

theorem mem_joinComma_quote : ∀ (fs : List (List Char)) (c : Char),
    c ∈ joinComma (fs.map quoteField) → c = '"' ∨ c = ',' ∨ ∃ f ∈ fs, c ∈ f := by
  intro fs
  induction fs with
  | nil => intro c h; simp [joinComma, List.intercalate] at h
  | cons f rest ih =>
    intro c h
    cases rest with
    | nil =>
      rw [List.map_cons, List.map_nil, joinComma_single, quoteField] at h
      rcases List.mem_cons.mp h with h1 | h1
      · exact Or.inl h1
      · rcases List.mem_append.mp h1 with h2 | h2
        · exact Or.inr (Or.inr ⟨f, by simp, h2⟩)
        · exact Or.inl (by simpa using h2)
    | cons f2 t =>
      rw [List.map_cons, joinComma_cons _ _ (by simp), quoteField, List.cons_append] at h
      rcases List.mem_cons.mp h with h1 | h1
      · exact Or.inl h1
      · rcases List.mem_append.mp h1 with h2 | h2
        · rcases List.mem_append.mp h2 with h3 | h3
          · exact Or.inr (Or.inr ⟨f, by simp, h3⟩)
          · exact Or.inl (by simpa using h3)
        · rcases List.mem_cons.mp h2 with h3 | h3
          · exact Or.inr (Or.inl h3)
          · rcases ih c h3 with h4 | h4 | ⟨g, hg, hcg⟩
            · exact Or.inl h4
            · exact Or.inr (Or.inl h4)
            · exact Or.inr (Or.inr ⟨g, List.mem_cons_of_mem _ hg, hcg⟩)

theorem quotedLine_no_nl (fs : List (List Char)) (hmem : ∀ f ∈ fs, '\n' ∉ f) :
    '\n' ∉ joinComma (fs.map quoteField) := by
  intro h
  rcases mem_joinComma_quote fs '\n' h with h1 | h1 | ⟨f, hf, hnl⟩
  · exact absurd h1 (by decide)
  · exact absurd h1 (by decide)
  · exact hmem f hf hnl

theorem jsTrim_ends (c d : Char) (m : List Char) (hc : jsSpace c = false)
    (hd : jsSpace d = false) : jsTrim (c :: (m ++ [d])) = c :: (m ++ [d]) := by
  have h1 : List.dropWhile jsSpace (c :: (m ++ [d])) = c :: (m ++ [d]) := by
    rw [List.dropWhile_cons, hc]
    simp
  have h2 : (c :: (m ++ [d])).reverse = d :: (m.reverse ++ [c]) := by simp
  have h3 : List.dropWhile jsSpace (d :: (m.reverse ++ [c])) = d :: (m.reverse ++ [c]) := by
    rw [List.dropWhile_cons, hd]
    simp
  rw [jsTrim, h1, h2, h3, ← h2, List.reverse_reverse]

theorem quotedLine_trim (fs : List (List Char)) (hne : fs ≠ []) :
    jsTrim (joinComma (fs.map quoteField)) = joinComma (fs.map quoteField) ∧
    joinComma (fs.map quoteField) ≠ [] := by
  rcases quotedLine_shape fs hne with ⟨m, hm⟩
  rw [hm]
  exact ⟨jsTrim_ends '"' '"' m (by decide) (by decide), by simp⟩

theorem aux_open (cur rest : List Char) :
    parseCSVLineAux false cur ('"' :: rest) = parseCSVLineAux true cur rest := by
  rw [parseCSVLineAux.eq_def]
  simp

theorem aux_close_nil (cur : List Char) : parseCSVLineAux true cur ['"'] = [cur.reverse] := rfl

theorem aux_close_comma (cur rest : List Char) :
    parseCSVLineAux true cur ('"' :: ',' :: rest) =
      cur.reverse :: parseCSVLineAux false [] rest := by
  have s1 : parseCSVLineAux true cur ('"' :: ',' :: rest) =
      parseCSVLineAux false cur (',' :: rest) := by
    rw [parseCSVLineAux.eq_def]
    simp
  have s2 : parseCSVLineAux false cur (',' :: rest) =
      cur.reverse :: parseCSVLineAux false [] rest := by
    rw [parseCSVLineAux.eq_def]
    simp
  rw [s1, s2]

theorem aux_in_cons (c : Char) (hc : ¬(c = '"')) (cur rest : List Char) :
    parseCSVLineAux true cur (c :: rest) = parseCSVLineAux true (c :: cur) rest := by
  rw [parseCSVLineAux.eq_def]
  simp [hc]

theorem tokAppend (f : List Char) (hf : '"' ∉ f) : ∀ cur rest : List Char,
    parseCSVLineAux true cur (f ++ rest) = parseCSVLineAux true (f.reverse ++ cur) rest := by
  induction f with
  | nil => intro cur rest; simp
  | cons c t ih =>
    intro cur rest
    have hc : ¬(c = '"') := fun hcq => hf (hcq ▸ List.mem_cons_self c t)
    have hmem : '"' ∉ t := fun hm => hf (List.mem_cons_of_mem _ hm)
    rw [List.cons_append, aux_in_cons c hc, ih hmem (c :: cur) rest]
    simp

theorem tokFields : ∀ fs : List (List Char), fs ≠ [] → (∀ f ∈ fs, '"' ∉ f) →
    parseCSVLine (joinComma (fs.map quoteField)) = fs := by
  intro fs
  induction fs with
  | nil => intro h; exact absurd rfl h
  | cons f rest ih =>
    intro _ hq
    have hf : '"' ∉ f := hq f (List.mem_cons_self f rest)
    cases rest with
    | nil =>
      rw [List.map_cons, List.map_nil, joinComma_single, parseCSVLine, quoteField, aux_open,
        tokAppend f hf [] ['"'], aux_close_nil]
      simp
    | cons f2 t =>
      rw [List.map_cons, joinComma_cons _ _ (by simp), parseCSVLine, quoteField,
        List.cons_append, List.append_assoc]
      rw [show (['"'] ++ ',' :: joinComma (List.map quoteField (f2 :: t))) =
          '"' :: ',' :: joinComma (List.map quoteField (f2 :: t)) from rfl]
      rw [aux_open, tokAppend f hf [] _, aux_close_comma]
      rw [show parseCSVLineAux false [] (joinComma (List.map quoteField (f2 :: t))) =
          parseCSVLine (joinComma (List.map quoteField (f2 :: t))) from rfl]
      rw [ih (by simp) (fun x hx => hq x (List.mem_cons_of_mem _ hx))]
      simp




theorem mapIdx_congr {α β : Type} (f g : ℕ → α → β) :
    ∀ l : List α, (∀ i a, f i a = g i a) → l.mapIdx f = l.mapIdx g := by
  intro l
  induction l generalizing f g with
  | nil => intro _; rfl
  | cons a t ih =>
    intro h
    rw [List.mapIdx_cons, List.mapIdx_cons, h 0 a, ih _ _ (fun i b => h (i + 1) b)]

theorem mapIdx_eq_self {α : Type} : ∀ (l : List α) (f : ℕ → α → α),
    (∀ i a, a ∈ l → f i a = a) → l.mapIdx f = l := by
  intro l
  induction l with
  | nil => intro f _; rfl
  | cons a t ih =>
    intro f h
    rw [List.mapIdx_cons, h 0 a (List.mem_cons_self a t),
      ih _ (fun i b hb => h (i + 1) b (List.mem_cons_of_mem _ hb))]

theorem processHeaders_id (hs : List (List Char)) (h : ∀ x ∈ hs, jsTrim x = x ∧ x ≠ []) :
    processHeaders defaultOpts hs = hs := by
  rw [processHeaders]
  apply mapIdx_eq_self
  intro i a ha
  simp [(h a ha).1, (h a ha).2]

theorem mapIdx_getD (g : List Char → List Char) :
    ∀ (hs vs : List (List Char)) (f : List Char → List Char), vs = hs.map f →
      hs.mapIdx (fun i h => (h, g (vs.getD i []))) = hs.map (fun h => (h, g (f h))) := by
  intro hs
  induction hs with
  | nil => intro vs f _; rfl
  | cons a t ih =>
    intro vs f hvs
    subst hvs
    rw [List.map_cons, List.mapIdx_cons]
    congr 1
    rw [mapIdx_congr _ (fun i h => (h, g ((t.map f).getD i []))) t
      (fun i b => by simp [List.getD_cons_succ])]
    exact ih (t.map f) f rfl

theorem objSet_values (f : List Char → List Char) (r : CSVRow) (k v : List Char)
    (hr : ∀ p ∈ r, p.2 = f p.1) (hv : v = f k) : ∀ p ∈ objSet r k v, p.2 = f p.1 := by
  intro p hp
  rw [objSet] at hp
  split at hp
  · rcases List.mem_map.mp hp with ⟨q, hq, rfl⟩
    by_cases hqk : q.1 = k
    · rw [if_pos hqk]
      exact hv
    · rw [if_neg hqk]
      exact hr q hq
  · rcases List.mem_append.mp hp with h1 | h1
    · exact hr p h1
    · rw [List.mem_singleton] at h1
      subst h1
      exact hv

theorem objSet_hasKey_self (r : CSVRow) (k v : List Char) :
    (objSet r k v).any (fun p => decide (p.1 = k)) = true := by
  rw [objSet]
  split
  case isTrue hc =>
    rcases List.any_eq_true.mp hc with ⟨q, hq, hqk⟩
    refine List.any_eq_true.mpr ⟨(k, v), List.mem_map.mpr ⟨q, hq, ?_⟩, by simp⟩
    rw [if_pos (of_decide_eq_true hqk)]
  case isFalse =>
    exact List.any_eq_true.mpr ⟨(k, v), by simp, by simp⟩

theorem objSet_hasKey_mono (r : CSVRow) (k0 v k : List Char)
    (h : r.any (fun p => decide (p.1 = k)) = true) :
    (objSet r k0 v).any (fun p => decide (p.1 = k)) = true := by
  rw [objSet]
  split
  case isTrue hc =>
    rcases List.any_eq_true.mp h with ⟨q, hq, hqk⟩
    by_cases hq0 : q.1 = k0
    · refine List.any_eq_true.mpr ⟨(k0, v), List.mem_map.mpr ⟨q, hq, by rw [if_pos hq0]⟩, ?_⟩
      have hqk2 : q.1 = k := of_decide_eq_true hqk
      simp [← hq0, hqk2]
    · exact List.any_eq_true.mpr ⟨q, List.mem_map.mpr ⟨q, hq, by rw [if_neg hq0]⟩, hqk⟩
  case isFalse =>
    rcases List.any_eq_true.mp h with ⟨q, hq, hqk⟩
    exact List.any_eq_true.mpr ⟨q, List.mem_append.mpr (Or.inl hq), hqk⟩

theorem rowGet_of_any (f : List Char → List Char) (r : CSVRow) (k : List Char)
    (hr : ∀ p ∈ r, p.2 = f p.1) (h : r.any (fun p => decide (p.1 = k)) = true) :
    rowGet r k = f k := by
  rw [rowGet]
  cases hf : r.find? (fun p => decide (p.1 = k)) with
  | none =>
    rcases List.any_eq_true.mp h with ⟨q, hq, hqk⟩
    exact absurd hqk (by simpa using List.find?_eq_none.mp hf q hq)
  | some p =>
    have hmem := List.mem_of_find?_eq_some hf
    have hpk : p.1 = k := by simpa using List.find?_some hf
    show p.2 = f k
    rw [hr p hmem, hpk]

theorem foldl_objSet_lookup (f : List Char → List Char) :
    ∀ (ps : List (List Char × List Char)) (acc : CSVRow) (k : List Char),
      (∀ p ∈ ps, p.2 = f p.1) → (∀ p ∈ acc, p.2 = f p.1) →
      (ps.any (fun p => decide (p.1 = k)) = true ∨
        acc.any (fun p => decide (p.1 = k)) = true) →
      rowGet (ps.foldl (fun r p => objSet r p.1 p.2) acc) k = f k := by
  intro ps
  induction ps with
  | nil =>
    intro acc k _ hacc hk
    rcases hk with h | h
    · simp at h
    · exact rowGet_of_any f acc k hacc h
  | cons p pt ih =>
    intro acc k hps hacc hk
    rw [List.foldl_cons]
    refine ih (objSet acc p.1 p.2) k (fun q hq => hps q (List.mem_cons_of_mem _ hq))
      (objSet_values f acc p.1 p.2 hacc (hps p (List.mem_cons_self p pt))) ?_
    rcases hk with h | h
    · rcases List.any_eq_true.mp h with ⟨q, hq, hqk⟩
      rcases List.mem_cons.mp hq with rfl | hq2
      · right
        have hk2 : q.1 = k := of_decide_eq_true hqk
        rw [← hk2]
        exact objSet_hasKey_self acc q.1 q.2
      · left
        exact List.any_eq_true.mpr ⟨q, hq2, hqk⟩
    · right
      exact objSet_hasKey_mono acc p.1 p.2 k h

theorem rowGet_buildRow (f : List Char → List Char) (hs : List (List Char))
    (htrim : ∀ x ∈ hs, jsTrim (f x) = f x) (k : List Char) (hk : k ∈ hs) :
    rowGet (buildRow defaultOpts hs (hs.map f)) k = f k := by
  show rowGet ((List.mapIdx (fun i h => (h, jsTrim ((hs.map f).getD i []))) hs).foldl
    (fun r p => objSet r p.1 p.2) []) k = f k
  rw [mapIdx_getD (fun v => jsTrim v) hs (hs.map f) f rfl]
  have hres := foldl_objSet_lookup (fun x => jsTrim (f x))
    (hs.map (fun h => (h, jsTrim (f h)))) [] k
    (by
      intro p hp
      rcases List.mem_map.mp hp with ⟨x, hx, rfl⟩
      rfl)
    (by simp)
    (Or.inl (List.any_eq_true.mpr ⟨(k, jsTrim (f k)), List.mem_map.mpr ⟨k, hk, rfl⟩, by simp⟩))
  rw [hres]
  exact htrim k hk

theorem filterMap_all_some {α β : Type} (g : α → Option β) (f2 : α → β) :
    ∀ l : List α, (∀ a ∈ l, g a = some (f2 a)) → l.filterMap g = l.map f2 := by
  intro l
  induction l with
  | nil => intro _; rfl
  | cons a t ih =>
    intro h
    simp [List.filterMap_cons, h a (by simp), ih (fun x hx => h x (by simp [hx]))]

/-- C6 amended: `export(parse(export(T))) = export(T)` for every table
whose headers are nonempty, trim-invariant and free of literal quotes
and newlines, and whose exported field values are trim-invariant and
free of literal quotes and newlines (a table with no headers must have
no rows). The original no-literal-quote condition alone is not enough:
reparsing trims values, newlines break a field across lines, and empty
headers are renamed. -/
theorem claim_C6_amended :
    ∀ T : CSVTable,
      (T.headers = [] → T.rows = []) →
      (∀ h ∈ T.headers, goodField h ∧ h ≠ []) →
      (∀ r ∈ T.rows, ∀ h ∈ T.headers, goodField (rowGet r h)) →
      exportToCSV (parse defaultOpts (exportToCSV T)) = exportToCSV T := by
  intro T hempty hhead hrows
  obtain ⟨hs, rows, n⟩ := T
  by_cases hhs : hs = []
  · subst hhs
    have hr0 : rows = [] := hempty rfl
    subst hr0
    rfl
  · have hq : ∀ x ∈ hs, '"' ∉ x := fun x hx => ((hhead x hx).1).1
    have hnl : ∀ x ∈ hs, '\n' ∉ x := fun x hx => ((hhead x hx).1).2.1
    have htr : ∀ x ∈ hs, jsTrim x = x ∧ x ≠ [] :=
      fun x hx => ⟨((hhead x hx).1).2.2, (hhead x hx).2⟩
    have hfq : ∀ r ∈ rows, ∀ v ∈ hs.map (fun h => rowGet r h), '"' ∉ v := by
      intro r hr v hv
      rcases List.mem_map.mp hv with ⟨x, hx, rfl⟩
      exact (hrows r hr x hx).1
    have hfnl : ∀ r ∈ rows, ∀ v ∈ hs.map (fun h => rowGet r h), '\n' ∉ v := by
      intro r hr v hv
      rcases List.mem_map.mp hv with ⟨x, hx, rfl⟩
      exact (hrows r hr x hx).2.1
    have hftr : ∀ r ∈ rows, ∀ x ∈ hs, jsTrim (rowGet r x) = rowGet r x :=
      fun r hr x hx => (hrows r hr x hx).2.2
    have hfne : ∀ r : CSVRow, hs.map (fun h => rowGet r h) ≠ [] := by
      intro r hmap
      exact hhs (by simpa using hmap)
    have hexp : exportToCSV ⟨hs, rows, n⟩ =
        List.intercalate ['\n'] (joinComma (hs.map quoteField) ::
          rows.map (fun r => joinComma ((hs.map (fun h => rowGet r h)).map quoteField))) := by
      rw [exportToCSV]
      simp only [List.map_map]
      rfl
    have hnlAll : ∀ l ∈ (joinComma (hs.map quoteField) ::
        rows.map (fun r => joinComma ((hs.map (fun h => rowGet r h)).map quoteField))),
        '\n' ∉ l := by
      intro l hl
      rcases List.mem_cons.mp hl with rfl | hl2
      · exact quotedLine_no_nl hs hnl
      · rcases List.mem_map.mp hl2 with ⟨r, hr, rfl⟩
        exact quotedLine_no_nl _ (hfnl r hr)
    have hfilt : (splitNl (exportToCSV ⟨hs, rows, n⟩)).filter (fun l => decide (jsTrim l ≠ [])) =
        joinComma (hs.map quoteField) ::
          rows.map (fun r => joinComma ((hs.map (fun h => rowGet r h)).map quoteField)) := by
      rw [hexp, splitNl_intercalate _ (by simp) hnlAll]
      apply List.filter_eq_self.mpr
      intro l hl
      rcases List.mem_cons.mp hl with rfl | hl2
      · rw [decide_eq_true_eq, (quotedLine_trim hs hhs).1]
        exact (quotedLine_trim hs hhs).2
      · rcases List.mem_map.mp hl2 with ⟨r, hr, rfl⟩
        rw [decide_eq_true_eq, (quotedLine_trim _ (hfne r)).1]
        exact (quotedLine_trim _ (hfne r)).2
    have hH : processHeaders defaultOpts (parseCSVLine (joinComma (hs.map quoteField))) = hs := by
      rw [tokFields hs hhs hq, processHeaders_id hs htr]
    have hparse : parse defaultOpts (exportToCSV ⟨hs, rows, n⟩) =
        ⟨hs, rows.map (fun r => buildRow defaultOpts hs (hs.map (fun h => rowGet r h))),
          (rows.map (fun r => buildRow defaultOpts hs (hs.map (fun h => rowGet r h)))).length⟩ := by
      unfold parse
      rw [hfilt]
      dsimp only
      rw [hH]
      have hrows2 : (rows.map (fun r =>
            joinComma ((hs.map (fun h => rowGet r h)).map quoteField))).filterMap (fun l =>
          let line := jsTrim l
          if line = [] ∧ defaultOpts.skipEmptyRows then none
          else
            let values := parseCSVLine line
            if values = [] then none
            else some (buildRow defaultOpts hs values)) =
          rows.map (fun r => buildRow defaultOpts hs (hs.map (fun h => rowGet r h))) := by
        rw [List.filterMap_map]
        apply filterMap_all_some
        intro r hr
        show (let line := jsTrim (joinComma ((hs.map (fun h => rowGet r h)).map quoteField))
          if line = [] ∧ defaultOpts.skipEmptyRows then none
          else
            let values := parseCSVLine line
            if values = [] then none
            else some (buildRow defaultOpts hs values)) = _
        rw [show jsTrim (joinComma ((hs.map (fun h => rowGet r h)).map quoteField)) =
            joinComma ((hs.map (fun h => rowGet r h)).map quoteField) from
          (quotedLine_trim _ (hfne r)).1]
        rw [if_neg (fun hand => absurd hand.1 (quotedLine_trim _ (hfne r)).2)]
        rw [tokFields _ (hfne r) (hfq r hr)]
        rw [if_neg (hfne r)]
      rw [hrows2]
    rw [hparse, exportToCSV, exportToCSV]
    congr 1
    congr 1
    simp only [List.map_map]
    apply List.map_congr_left
    intro r hr
    show joinComma (hs.map (fun h =>
        quoteField (rowGet (buildRow defaultOpts hs (hs.map (fun h2 => rowGet r h2))) h))) =
      joinComma (hs.map (fun h => quoteField (rowGet r h)))
    congr 1
    apply List.map_congr_left
    intro x hx
    rw [rowGet_buildRow (fun h => rowGet r h) hs (fun z hz => hftr r hr z hz) x hx]

/-- A concrete well-behaved table for the C6 witness. -/
def roundTable : CSVTable := ⟨[("a").toList], [[(("a").toList, ("x").toList)]], 1⟩

/-- Witness for C6: the amended round trip at a concrete one-cell
table. -/
theorem claim_C6_witness :
    exportToCSV (parse defaultOpts (exportToCSV roundTable)) = exportToCSV roundTable :=
  claim_C6_amended roundTable (by decide) (by decide) (by decide)

end WBD
